import Mathlib

/-!
Shallow embedding of the xv6-style file-system engine (src/fs.c and the
file-descriptor / password-lock layer), together with proofs about its
pathname parsing, symlink canonicalization, block map, inode lifecycle
and password-lock operations.

Strings are modelled as `List Char` holding the contents of a C string
(NUL-free; the terminating NUL is not part of the list).  Machine `uint`
arithmetic is modelled on `Nat` with explicit `% 2^32` where overflow
matters.  A `panic` in the C code is modelled as `Except.error ()`;
a recoverable `-1` return keeps its place in the ordinary result.
-/

deriving instance DecidableEq for Except

/-- Directory-entry name length, from the on-disk format (fs.h, not under
src/; the value 14 is the standard layout used by this code base). -/
def DIRSIZ : Nat := 14

/-- Size in bytes of a struct dirent (ushort inum + char name[DIRSIZ]). -/
def DIRENTSZ : Nat := 16

/-- The NUL terminator character. -/
def NUL : Char := Char.ofNat 0

/-- Modelled from the spec: PASSLEN, the fixed password-buffer length, is
declared in a header outside src/; its exact value is immaterial to the
claims (only `strncmp .. PASSLEN` matters), we fix a positive value. -/
def PASSLEN : Nat := 10

/-- Modelled from the spec: MAXPATH, the path-buffer size, is declared in a
header outside src/.  Buffers are modelled as unbounded lists; MAXPATH is
used only where the code passes it as an explicit size argument. -/
def MAXPATH : Nat := 512

/-- Modelled from the spec: NPROC, the process-table capacity bounding each
exemption-table row, is declared in param.h outside src/. -/
def NPROC : Nat := 64

/-- Fixed symlink-substitution budget (`#define MAX_SYMLINK_LOOPS 16`). -/
def MAX_SYMLINK_LOOPS : Nat := 16

/-- C `strncmp` on NUL-free C strings (a list ending means the NUL is
reached there): compares at most `n` characters, returning the difference
of the first differing pair (0 on equality). -/
def strncmp : List Char → List Char → Nat → Int
  | _, _, 0 => 0
  | [], [], _ + 1 => 0
  | [], c :: _, _ + 1 => -(c.toNat : Int)
  | c :: _, [], _ + 1 => (c.toNat : Int)
  | a :: s, b :: t, n + 1 => if a = b then strncmp s t n else (a.toNat : Int) - b.toNat

/-- Fixed-length directory name comparison (`namecmp` in fs.c). -/
def namecmp (s t : List Char) : Int := strncmp s t DIRSIZ

/-- Slash test, as a Bool predicate shared by all path-walking code. -/
def isSlash (c : Char) : Bool := c = '/'

/-- Negated slash test (the `*path != '/'` loop condition). -/
def notSlash (c : Char) : Bool := ¬ c = '/'

/-- Strip leading slashes (the `while(*path == '/') path++;` idiom). -/
def dropSlashes (p : List Char) : List Char := p.dropWhile isSlash

/-- Core of `skipelem` (fs.c): splits off the next path component.  Returns
`none` when the path is empty or all slashes; otherwise returns the
remainder (with the slashes after the component stripped) and the raw
(untruncated) component. -/
def skipelemCore (path : List Char) : Option (List Char × List Char) :=
  let p := dropSlashes path
  match p with
  | [] => Option.none
  | _ :: _ =>
    let comp := p.takeWhile notSlash
    let rest := dropSlashes (p.dropWhile notSlash)
    some (rest, comp)

/-- Bytes that `skipelem` writes into the `name` buffer: the component
truncated to DIRSIZ bytes with no terminator when it is at least DIRSIZ
long, otherwise the component followed by a NUL terminator. -/
def skipelemWritten (path : List Char) : Option (List Char × List Char) :=
  match skipelemCore path with
  | Option.none => Option.none
  | some (rest, comp) =>
    some (rest, if DIRSIZ ≤ comp.length then comp.take DIRSIZ else comp ++ [NUL])

/-- The `name` buffer read back as a C string after `skipelem` (the byte
after a full-length component stays NUL, the buffer's rest state). -/
def skipelemName (path : List Char) : Option (List Char × List Char) :=
  match skipelemCore path with
  | Option.none => Option.none
  | some (rest, comp) => some (rest, comp.take DIRSIZ)

theorem dropSlashes_head {path : List Char} {c : Char} {p' : List Char}
    (h : dropSlashes path = c :: p') : ¬ c = '/' := by
  induction path with
  | nil => simp [dropSlashes] at h
  | cons x xs ih =>
    by_cases hx : x = '/'
    · apply ih
      simpa [dropSlashes, List.dropWhile_cons, isSlash, hx] using h
    · have hxx : x :: xs = c :: p' := by
        simpa [dropSlashes, List.dropWhile_cons, isSlash, hx] using h
      rw [List.cons.injEq] at hxx
      rw [← hxx.1]
      exact hx

theorem skipelemCore_rest_length {path rest comp : List Char}
    (h : skipelemCore path = some (rest, comp)) : rest.length < path.length := by
  unfold skipelemCore at h
  rcases hp : dropSlashes path with _ | ⟨c, p'⟩
  · rw [hp] at h; simp at h
  · rw [hp] at h
    simp only [Option.some.injEq, Prod.mk.injEq] at h
    obtain ⟨hrest, hcomp⟩ := h
    have hlen : (dropSlashes path).length ≤ path.length :=
      (List.dropWhile_sublist _).length_le
    rw [hp] at hlen
    -- the component is nonempty: the head of dropSlashes is not a slash
    have hc : ¬ c = '/' := dropSlashes_head hp
    have hcomp_len : 1 ≤ ((c :: p').takeWhile notSlash).length := by
      simp [List.takeWhile_cons, notSlash, hc]
    have hdrop : ((c :: p').dropWhile notSlash).length
        = (c :: p').length - ((c :: p').takeWhile notSlash).length := by
      have := List.takeWhile_append_dropWhile (p := notSlash) (l := c :: p')
      have hl := congrArg List.length this
      simp only [List.length_append] at hl
      omega
    have h1 : rest.length ≤ ((c :: p').dropWhile notSlash).length := by
      rw [← hrest]
      exact (List.dropWhile_sublist _).length_le
    simp only [List.length_cons] at hdrop hlen
    omega

/-- Inode types (stat.h, not under src/; numeric values follow the standard
layout: directory, file, device, plus the symlink type this repo adds).
`free` is a dinode of type zero. -/
inductive IType where
  | free
  | dir
  | file
  | dev
  | symlink
deriving DecidableEq, Repr

/-- In-memory inode as the pathname / password layer sees it.  Directory
content (the sequence of dirents) and symlink content (the target text)
are the inode's file content, modelled structurally; `password` holds the
C-string contents of the fixed password buffer (empty list = no password). -/
structure Inode where
  itype : IType
  nlink : Nat
  password : List Char
  entries : List (Nat × List Char)
  target : List Char
deriving DecidableEq, Repr

/-- The file system visible to pathname resolution: the inode store indexed
by inode number, the root inode number (ROOTINO) and the calling process's
current-working-directory inode number. -/
structure FS where
  inodes : Nat → Inode
  rootIno : Nat
  cwdIno : Nat

/-- Replace the inode stored at number `i`. -/
def setInode (fs : FS) (i : Nat) (ino : Inode) : FS :=
  { fs with inodes := fun j => if j = i then ino else fs.inodes j }

/-- Walk of `dirlookup`'s entry loop: scan dirents in order at byte offsets
0, DIRENTSZ, 2*DIRENTSZ, …, skipping free entries (inum zero), returning
the first whose name matches under `namecmp` together with its offset. -/
def dirlookupGo (name : List Char) : List (Nat × List Char) → Nat → Option (Nat × Nat)
  | [], _ => Option.none
  | (inum, ename) :: rest, off =>
    if inum = 0 then dirlookupGo name rest (off + DIRENTSZ)
    else if namecmp name ename = 0 then some (inum, off)
    else dirlookupGo name rest (off + DIRENTSZ)

/-- `dirlookup` (fs.c): panics (`Except.error`) when the inode is not a
directory; otherwise returns the matching entry's (inum, byte offset), or
`none` for "not found". -/
def dirlookup (dp : Inode) (name : List Char) : Except Unit (Option (Nat × Nat)) :=
  if ¬ dp.itype = IType.dir then Except.error ()
  else Except.ok (dirlookupGo name dp.entries 0)

/-- Loop of `namex` (fs.c): consume one component at a time starting from
inode `ino`.  Locking an inode whose on-disk type is zero panics
("ilock: no type"); a non-directory intermediate or a missing entry gives
"not found" (`Option.none`); with `nameiparent` set, resolution stops one
level early at the parent. -/
def namexGo (fs : FS) (nameiparent : Bool) :
    Nat → List Char → Nat → Except Unit (Option Nat)
  | 0, _, _ => Except.error ()
  | fuel + 1, path, ino =>
    match skipelemCore path with
    | Option.none =>
      if nameiparent then Except.ok Option.none else Except.ok (some ino)
    | some (rest, comp) =>
      let name := comp.take DIRSIZ
      let ip := fs.inodes ino
      if ip.itype = IType.free then Except.error ()
      else if ¬ ip.itype = IType.dir then Except.ok Option.none
      else if nameiparent ∧ rest = [] then Except.ok (some ino)
      else
        match dirlookupGo name ip.entries 0 with
        | Option.none => Except.ok Option.none
        | some (ninum, _) => namexGo fs nameiparent fuel rest ninum

/-- `namei` (fs.c): resolve a path to an inode number, starting from the
root for an absolute path and from the cwd otherwise.  The fuel
`path.length + 1` bounds the component loop; it is never exhausted
because `skipelemCore` strictly shortens the remainder. -/
def namei (fs : FS) (path : List Char) : Except Unit (Option Nat) :=
  namexGo fs false (path.length + 1) path
    (if path.head? = some '/' then fs.rootIno else fs.cwdIno)

/-- Outcome of one pass of the canonicalization loop body: recoverable
failure (-1), a fatal panic, success with the output buffer and return
value, or a `goto restart` with the rewritten path. -/
inductive RlStep where
  | fail
  | halt
  | done (buf : List Char) (ret : Nat)
  | restart (newpath : List Char)
deriving DecidableEq, Repr

/-- Body of the `for(;;)` component loop shared by `filereadlink`
(`resolveFinal = true`) and `filereadlinki` (`resolveFinal = false`),
fs.c.  `result` is the canonical prefix built so far (`result_off` is its
length), `path` the unconsumed suffix of `origpath`.  The symlink cases
rebuild the path exactly as the C buffer arithmetic does: the target text
replaces the component, a slash and the unresolved suffix follow, and the
absolute/relative test looks at the first substituted byte. -/
def rlInner (fs : FS) (resolveFinal : Bool) (bufsiz : Nat) :
    Nat → List Char → List Char → RlStep
  | 0, _, _ => RlStep.halt
  | fuel + 1, result, path =>
    match skipelemCore path with
    | Option.none => RlStep.fail
    | some (rest, comp) =>
      let name := comp.take DIRSIZ
      if rest = [] then
        let result1 := result ++ name
        if resolveFinal then
          match namei fs result1 with
          | Except.error _ => RlStep.halt
          | Except.ok Option.none => RlStep.fail
          | Except.ok (some ino) =>
            let ip := fs.inodes ino
            if ip.itype = IType.free then RlStep.halt
            else if ip.itype = IType.file ∨ ip.itype = IType.dev ∨ ip.itype = IType.dir then
              if bufsiz < result1.length + 1 then RlStep.fail
              else RlStep.done result1 result1.length
            else
              if ip.target.head? = some '/' then RlStep.restart ip.target
              else RlStep.restart (result ++ ip.target)
        else
          if bufsiz < result1.length + 1 then RlStep.fail
          else RlStep.done result1 result1.length
      else
        let result1 := result ++ name
        match namei fs result1 with
        | Except.error _ => RlStep.halt
        | Except.ok Option.none => RlStep.fail
        | Except.ok (some ino) =>
          let ip := fs.inodes ino
          if ip.itype = IType.free then RlStep.halt
          else if ip.itype = IType.file ∨ ip.itype = IType.dev then RlStep.fail
          else if ip.itype = IType.dir then
            rlInner fs resolveFinal bufsiz fuel (result1 ++ ['/']) rest
          else
            let sub := ip.target ++ '/' :: rest
            if sub.head? = some '/' then RlStep.restart sub
            else RlStep.restart (result ++ sub)

/-- Outer retry loop of `filereadlink`/`filereadlinki`: each symlink
substitution consumes one unit of the 16-substitution budget
(`loops_left-- ; if(loops_left == 0) return -1; goto restart`). -/
def rlOuter (fs : FS) (resolveFinal : Bool) (bufsiz : Nat) :
    Nat → List Char → Except Unit (Option (List Char × Nat))
  | 0, _ => Except.ok Option.none
  | loops + 1, origpath =>
    let result0 : List Char := if origpath.head? = some '/' then ['/'] else []
    match rlInner fs resolveFinal bufsiz (origpath.length + 1) result0 origpath with
    | RlStep.fail => Except.ok Option.none
    | RlStep.halt => Except.error ()
    | RlStep.done buf r => Except.ok (some (buf, r))
    | RlStep.restart p =>
      if loops = 0 then Except.ok Option.none
      else rlOuter fs resolveFinal bufsiz loops p

/-- `filereadlink` (fs.c): symlink-aware canonicalization resolving the
final component.  `Except.ok Option.none` is the C return value -1;
`Except.ok (some (buf, r))` is success with output buffer `buf` and
return value `r`. -/
def filereadlink (fs : FS) (pathname : List Char) (bufsiz : Nat) :
    Except Unit (Option (List Char × Nat)) :=
  if pathname = [] then Except.ok Option.none
  else if pathname = ['/'] then Except.ok (some (['/'], 2))
  else rlOuter fs true bufsiz MAX_SYMLINK_LOOPS pathname

/-- `filereadlinki` (fs.c): same as `filereadlink` but the final path
element is not dereferenced. -/
def filereadlinki (fs : FS) (pathname : List Char) (bufsiz : Nat) :
    Except Unit (Option (List Char × Nat)) :=
  if pathname = [] then Except.ok Option.none
  else if pathname = ['/'] then Except.ok (some (['/'], 2))
  else rlOuter fs false bufsiz MAX_SYMLINK_LOOPS pathname

/-- Convert a string literal to the C-string character list. -/
def str (s : String) : List Char := s.data

/-- A free (type-zero) inode slot. -/
def freeInode : Inode :=
  { itype := IType.free, nlink := 0, password := [], entries := [], target := [] }

/-- A plain regular-file inode. -/
def fileInode : Inode :=
  { itype := IType.file, nlink := 1, password := [], entries := [], target := [] }

/-- A symlink inode storing target text `t`. -/
def symInode (t : List Char) : Inode :=
  { itype := IType.symlink, nlink := 1, password := [], entries := [], target := t }

/-- A directory inode with the given dirents. -/
def dirInode (es : List (Nat × List Char)) : Inode :=
  { itype := IType.dir, nlink := 1, password := [], entries := es, target := [] }

/-- Name of the i-th symlink in the test chains: "sA", "sB", …. -/
def sname (i : Nat) : List Char := ['s', Char.ofNat (65 + i)]

/-- Test family for the substitution budget: a root directory holding a
regular file "f" and symlinks "sA" → "/sB" → … → "/f", a chain whose
resolution takes exactly `n` substitutions when started at "/sA". -/
def chainFS (n : Nat) : FS :=
  { inodes := fun j =>
      if j = 1 then dirInode ((2, str "f") :: (List.range n).map (fun i => (10 + i, sname i)))
      else if j = 2 then fileInode
      else if 10 ≤ j ∧ j < 10 + n then
        symInode (if j + 1 < 10 + n then '/' :: sname (j - 10 + 1) else str "/f")
      else freeInode,
    rootIno := 1, cwdIno := 1 }

/-- Test family for symlink cycles: symlinks "sA" → "/sB" → … wrapping back
to "/sA", a cycle of length `k`. -/
def cycleFS (k : Nat) : FS :=
  { inodes := fun j =>
      if j = 1 then dirInode ((List.range k).map (fun i => (10 + i, sname i)))
      else if 10 ≤ j ∧ j < 10 + k then
        symInode ('/' :: sname ((j - 10 + 1) % k))
      else freeInode,
    rootIno := 1, cwdIno := 1 }

/-- `filefunprot` (file.c): unprotect.  Canonicalizes the path without
dereferencing the final element, resolves it, then: no password is a
successful no-op; a mismatching password (under `strncmp .. PASSLEN`)
fails leaving the inode unchanged; a match clears the password field. -/
def filefunprot (fs : FS) (pathname password : List Char) : Except Unit (Int × FS) :=
  match filereadlinki fs pathname MAXPATH with
  | Except.error _ => Except.error ()
  | Except.ok Option.none => Except.ok (-1, fs)
  | Except.ok (some (fp, _)) =>
    match namei fs fp with
    | Except.error _ => Except.error ()
    | Except.ok Option.none => Except.ok (-1, fs)
    | Except.ok (some ino) =>
      let ip := fs.inodes ino
      if ip.itype = IType.free then Except.error ()
      else if ip.password = [] then Except.ok (0, fs)
      else if ¬ strncmp ip.password password PASSLEN = 0 then Except.ok (-1, fs)
      else Except.ok (0, setInode fs ino { ip with password := [] })

/-- `unlock_inode` (fs.c, TASK 2): record `pid` in the exemption-table row
of inode number `inum`.  Already present: no-op.  Otherwise the first
free (zero) slot is claimed; with no free slot the kernel panics. -/
def unlock_inode (tbl : Nat → List Nat) (inum pid : Nat) :
    Except Unit (Nat → List Nat) :=
  let row := tbl inum
  if row.contains pid then Except.ok tbl
  else
    match row.findIdx? (fun x => x = 0) with
    | some i => Except.ok (fun j => if j = inum then row.set i pid else tbl j)
    | Option.none => Except.error ()

/-- `filefunlock` (file.c): grant-exemption.  Resolves the path like
`filefunprot`; an empty stored password or a mismatch fail with -1; on a
match the caller's pid is recorded via `unlock_inode`. -/
def filefunlock (fs : FS) (tbl : Nat → List Nat) (pid : Nat)
    (pathname password : List Char) : Except Unit (Int × (Nat → List Nat)) :=
  match filereadlinki fs pathname MAXPATH with
  | Except.error _ => Except.error ()
  | Except.ok Option.none => Except.ok (-1, tbl)
  | Except.ok (some (fp, _)) =>
    match namei fs fp with
    | Except.error _ => Except.error ()
    | Except.ok Option.none => Except.ok (-1, tbl)
    | Except.ok (some ino) =>
      let ip := fs.inodes ino
      if ip.itype = IType.free then Except.error ()
      else if ip.password = [] then Except.ok (-1, tbl)
      else if ¬ strncmp ip.password password PASSLEN = 0 then Except.ok (-1, tbl)
      else
        match unlock_inode tbl ino pid with
        | Except.error _ => Except.error ()
        | Except.ok tbl2 => Except.ok (0, tbl2)

/-- Block size in bytes (fs.h; 512, as also hard-coded in filewrite). -/
def BSIZE : Nat := 512

/-- Number of direct block slots (fs.h, standard layout). -/
def NDIRECT : Nat := 12

/-- Entries per indirect block: BSIZE / sizeof(uint). -/
def NINDIRECT : Nat := BSIZE / 4

/-- Maximum file size in blocks (direct + indirect + double indirect). -/
def MAXFILE : Nat := NDIRECT + NINDIRECT + NINDIRECT * NINDIRECT

/-- Modelled from the spec: NDEV, the device-switch table size (param.h,
outside src/). -/
def NDEV : Int := 10

/-- Modulus of C `uint` arithmetic. -/
def UINTMOD : Nat := 2 ^ 32

/-- Numeric inode types (stat.h): 1 = directory, 2 = file, 3 = device,
4 = symlink, 0 = free dinode. -/
def T_DIR : Nat := 1

/-- Regular-file inode type tag. -/
def T_FILE : Nat := 2

/-- Device inode type tag. -/
def T_DEV : Nat := 3

/-- Symlink inode type tag. -/
def T_SYMLINK : Nat := 4

/-- On-disk inode record, as written by `iupdate`. -/
structure DInode where
  dtype : Nat
  dmajor : Int
  dminor : Int
  dnlink : Nat
  dsize : Nat
  daddrs : Nat → Nat
  dindirect2 : Nat
  dpassword : List Char

/-- Block-device state for the block layer: total block count (sb.size),
the free bitmap (true = in use), index-block contents (block → slot →
stored block number), raw data bytes, and the dinode region. -/
structure Disk where
  nblocks : Nat
  bitmap : Nat → Bool
  blocks : Nat → Nat → Nat
  bytes : Nat → Nat → Nat
  dinodes : Nat → DInode

/-- In-memory inode as the block layer (bmap/itrunc/readi/writei/iput)
sees it: cache bookkeeping (ref, busy, valid) plus the dinode fields.
`addrs` holds the NDIRECT direct slots and, at index NDIRECT, the
single-indirect pointer; `indirect2` is the double-indirect pointer. -/
structure BInode where
  inum : Nat
  ref : Nat
  busy : Bool
  valid : Bool
  btype : Nat
  major : Int
  minor : Int
  nlink : Nat
  size : Nat
  addrs : Nat → Nat
  indirect2 : Nat
  bpassword : List Char

/-- Pointwise update of an address array. -/
def setAddr (a : Nat → Nat) (i v : Nat) : Nat → Nat :=
  fun j => if j = i then v else a j

/-- First clear bit of the free bitmap at or after `i`, scanning at most
`fuel` positions (`balloc`'s bitmap scan, pages flattened). -/
def scanFree (bm : Nat → Bool) : Nat → Nat → Option Nat
  | _, 0 => Option.none
  | i, fuel + 1 => if bm i = false then some i else scanFree bm (i + 1) fuel

/-- `balloc` (fs.c): take the first free block, mark it used, and zero its
contents; panics when no block is free. -/
def balloc (d : Disk) : Except Unit (Nat × Disk) :=
  match scanFree d.bitmap 0 d.nblocks with
  | Option.none => Except.error ()
  | some b =>
    Except.ok (b,
      { d with
        bitmap := fun x => if x = b then true else d.bitmap x,
        blocks := fun x => if x = b then (fun _ => 0) else d.blocks x,
        bytes := fun x => if x = b then (fun _ => 0) else d.bytes x })

/-- `bfree` (fs.c): clear a block's bitmap bit; freeing a free block
panics. -/
def bfree (d : Disk) (b : Nat) : Except Unit Disk :=
  if d.bitmap b = false then Except.error ()
  else Except.ok { d with bitmap := fun x => if x = b then false else d.bitmap x }

/-- Store `v` into slot `slot` of index block `b` (the `a[bn] = addr;
log_write(bp);` step). -/
def writeSlot (d : Disk) (b slot v : Nat) : Disk :=
  { d with
    blocks := fun x => if x = b then (fun s => if s = slot then v else d.blocks b s)
                       else d.blocks x }

/-- The `if((addr = a[bn]) == 0){ a[bn] = addr = balloc(dev); log_write(bp); }`
pattern of `bmap`: read slot `slot` of index block `blk`, allocating a
fresh block and storing its number on first touch. -/
def loadEntry (d : Disk) (blk slot : Nat) : Except Unit (Nat × Disk) :=
  if d.blocks blk slot = 0 then
    match balloc d with
    | Except.error _ => Except.error ()
    | Except.ok (addr, d2) => Except.ok (addr, writeSlot d2 blk slot addr)
  else Except.ok (d.blocks blk slot, d)

/-- `bmap` (fs.c): block number of the `bn`-th content block, allocating
direct, single-indirect and double-indirect levels on first touch;
an index beyond MAXFILE panics ("bmap: out of range"). -/
def bmap (ip : BInode) (d : Disk) (bn : Nat) : Except Unit (Nat × BInode × Disk) :=
  if bn < NDIRECT then
    if ip.addrs bn = 0 then
      match balloc d with
      | Except.error _ => Except.error ()
      | Except.ok (addr, d1) =>
        Except.ok (addr, { ip with addrs := setAddr ip.addrs bn addr }, d1)
    else Except.ok (ip.addrs bn, ip, d)
  else if bn - NDIRECT < NINDIRECT then
    let bn1 := bn - NDIRECT
    match (if ip.addrs NDIRECT = 0 then
             match balloc d with
             | Except.error _ => Except.error ()
             | Except.ok (a, d1) =>
               Except.ok (a, { ip with addrs := setAddr ip.addrs NDIRECT a }, d1)
           else Except.ok (ip.addrs NDIRECT, ip, d)) with
    | Except.error _ => Except.error ()
    | Except.ok (ia, ip1, d1) =>
      match loadEntry d1 ia bn1 with
      | Except.error _ => Except.error ()
      | Except.ok (addr, d2) => Except.ok (addr, ip1, d2)
  else if bn - NDIRECT - NINDIRECT < NINDIRECT * NINDIRECT then
    let bn2 := bn - NDIRECT - NINDIRECT
    match (if ip.indirect2 = 0 then
             match balloc d with
             | Except.error _ => Except.error ()
             | Except.ok (a, d1) => Except.ok (a, { ip with indirect2 := a }, d1)
           else Except.ok (ip.indirect2, ip, d)) with
    | Except.error _ => Except.error ()
    | Except.ok (i2, ip1, d1) =>
      match loadEntry d1 i2 (bn2 / NINDIRECT) with
      | Except.error _ => Except.error ()
      | Except.ok (mid, d2) =>
        match loadEntry d2 mid (bn2 % NINDIRECT) with
        | Except.error _ => Except.error ()
        | Except.ok (addr, d3) => Except.ok (addr, ip1, d3)
  else Except.error ()

/-- `iupdate` (fs.c): copy the in-memory inode's fields to its dinode
slot (type, major, minor, nlink, size, addrs, indirect2, password). -/
def iupdate (ip : BInode) (d : Disk) : Disk :=
  { d with
    dinodes := fun j =>
      if j = ip.inum then
        { dtype := ip.btype, dmajor := ip.major, dminor := ip.minor,
          dnlink := ip.nlink, dsize := ip.size, daddrs := ip.addrs,
          dindirect2 := ip.indirect2, dpassword := ip.bpassword }
      else d.dinodes j }

/-- Sequential fold over a list of loop indices threading a state through
`Except`, stopping at the first panic. -/
def exFold {α σ : Type} (f : σ → α → Except Unit σ) : σ → List α → Except Unit σ
  | s, [] => Except.ok s
  | s, a :: l =>
    match f s a with
    | Except.error e => Except.error e
    | Except.ok s2 => exFold f s2 l

/-- One iteration of `itrunc`'s direct loop: free `addrs[i]` if mapped and
zero the slot. -/
def truncDirectStep (s : BInode × Disk) (i : Nat) : Except Unit (BInode × Disk) :=
  if s.1.addrs i = 0 then Except.ok s
  else
    match bfree s.2 (s.1.addrs i) with
    | Except.error e => Except.error e
    | Except.ok d2 => Except.ok ({ s.1 with addrs := setAddr s.1.addrs i 0 }, d2)

/-- One iteration of the loop freeing the entries of index block `a`
(`if(a[j]) bfree(ip->dev, a[j]);`). -/
def truncEntryStep (a : Nat) (s : BInode × Disk) (j : Nat) :
    Except Unit (BInode × Disk) :=
  if s.2.blocks a j = 0 then Except.ok s
  else
    match bfree s.2 (s.2.blocks a j) with
    | Except.error e => Except.error e
    | Except.ok d2 => Except.ok (s.1, d2)

/-- One iteration of `itrunc`'s double-indirect loop: for mid-level entry
`i` of index block `i2`, free that mid block's entries then the mid block
itself. -/
def truncDblStep (i2 : Nat) (s : BInode × Disk) (i : Nat) :
    Except Unit (BInode × Disk) :=
  let mid := s.2.blocks i2 i
  if mid = 0 then Except.ok s
  else
    match exFold (truncEntryStep mid) s (List.range NINDIRECT) with
    | Except.error e => Except.error e
    | Except.ok s2 =>
      match bfree s2.2 mid with
      | Except.error e => Except.error e
      | Except.ok d2 => Except.ok (s2.1, d2)

/-- `itrunc` (fs.c): free every mapped direct, single-indirect and
double-indirect block, zero the index fields, set size to zero and
persist the inode. -/
def itrunc (ip : BInode) (d : Disk) : Except Unit (BInode × Disk) :=
  match exFold truncDirectStep (ip, d) (List.range NDIRECT) with
  | Except.error e => Except.error e
  | Except.ok (ip1, d1) =>
    match (if ip1.addrs NDIRECT = 0 then Except.ok (ip1, d1)
           else
             match exFold (truncEntryStep (ip1.addrs NDIRECT)) (ip1, d1)
                 (List.range NINDIRECT) with
             | Except.error e => Except.error e
             | Except.ok (ip2, d2) =>
               match bfree d2 (ip2.addrs NDIRECT) with
               | Except.error e => Except.error e
               | Except.ok d3 =>
                 Except.ok ({ ip2 with addrs := setAddr ip2.addrs NDIRECT 0 }, d3)) with
    | Except.error e => Except.error e
    | Except.ok (ip3, d3) =>
      match (if ip3.indirect2 = 0 then Except.ok (ip3, d3)
             else
               match exFold (truncDblStep ip3.indirect2) (ip3, d3)
                   (List.range NINDIRECT) with
               | Except.error e => Except.error e
               | Except.ok (ip4, d4) =>
                 match bfree d4 ip4.indirect2 with
                 | Except.error e => Except.error e
                 | Except.ok d5 => Except.ok ({ ip4 with indirect2 := 0 }, d5)) with
      | Except.error e => Except.error e
      | Except.ok (ip5, d5) =>
        let ip6 := { ip5 with size := 0 }
        Except.ok (ip6, iupdate ip6 d5)

/-- `iput` (fs.c): drop one reference.  When the last reference goes and
the inode is valid with no links, the entry is truncated and deallocated
(on-disk type cleared) under the busy flag, then the slot is marked
fully free (flags zero); otherwise only the reference count drops. -/
def iput (ip : BInode) (d : Disk) : Except Unit (BInode × Disk) :=
  if ip.ref = 1 ∧ ip.valid ∧ ip.nlink = 0 then
    if ip.busy then Except.error ()
    else
      match itrunc { ip with busy := true } d with
      | Except.error e => Except.error e
      | Except.ok (ip1, d1) =>
        let ip2 := { ip1 with btype := 0 }
        let d2 := iupdate ip2 d1
        Except.ok ({ ip2 with busy := false, valid := false, ref := ip2.ref - 1 }, d2)
  else Except.ok ({ ip with ref := ip.ref - 1 }, d)

/-- `iput` applied `k` times in sequence. -/
def iputN : Nat → BInode → Disk → Except Unit (BInode × Disk)
  | 0, ip, d => Except.ok (ip, d)
  | k + 1, ip, d =>
    match iput ip d with
    | Except.error e => Except.error e
    | Except.ok (ip1, d1) => iputN k ip1 d1

/-- Byte-copy loop of `readi` (fs.c): while bytes remain, map the block
holding `off`, copy `m = min(n - tot, BSIZE - off % BSIZE)` bytes out of
it, and advance.  `fuel` bounds the iteration count (each step copies at
least one byte, so `fuel = rem` suffices). -/
def readiGo : Nat → BInode → Disk → Nat → Nat → Except Unit (List Nat × BInode × Disk)
  | 0, ip, d, _, rem => if rem = 0 then Except.ok ([], ip, d) else Except.error ()
  | fuel + 1, ip, d, off, rem =>
    if rem = 0 then Except.ok ([], ip, d)
    else
      match bmap ip d (off / BSIZE) with
      | Except.error _ => Except.error ()
      | Except.ok (b, ip1, d1) =>
        let m := min rem (BSIZE - off % BSIZE)
        let chunk := (List.range m).map (fun t => d1.bytes b (off % BSIZE + t))
        match readiGo fuel ip1 d1 (off + m) (rem - m) with
        | Except.error _ => Except.error ()
        | Except.ok (tail, ip2, d2) => Except.ok (chunk ++ tail, ip2, d2)

/-- `readi` (fs.c): device inodes delegate to the device read handler
(-1 when the major number is out of range or no handler is registered);
otherwise an offset beyond the size or an overflowing `off + n` gives -1,
the length is clamped to the inode's size and the block copy loop runs.
`devr` is the `devsw[].read` table. -/
def readi (devr : Int → Option (Nat → Int)) (ip : BInode) (d : Disk)
    (off n : Nat) : Except Unit (Int × List Nat × BInode × Disk) :=
  if ip.btype = T_DEV then
    if ip.major < 0 ∨ NDEV ≤ ip.major then Except.ok (-1, [], ip, d)
    else
      match devr ip.major with
      | Option.none => Except.ok (-1, [], ip, d)
      | some f => Except.ok (f n, [], ip, d)
  else if ip.size < off ∨ (off + n) % UINTMOD < off then Except.ok (-1, [], ip, d)
  else
    let n1 := if ip.size < off + n then ip.size - off else n
    match readiGo n1 ip d off n1 with
    | Except.error _ => Except.error ()
    | Except.ok (bytes, ip1, d1) => Except.ok ((n1 : Int), bytes, ip1, d1)

/-- Store byte `v` at offset `idx` of data block `b`. -/
def writeByte (d : Disk) (b idx v : Nat) : Disk :=
  { d with
    bytes := fun x => if x = b then (fun s => if s = idx then v else d.bytes b s)
                      else d.bytes x }

/-- Store the bytes of `src` into block `b` starting at offset `base`. -/
def writeBytes (d : Disk) (b : Nat) : Nat → List Nat → Disk
  | _, [] => d
  | base, v :: rest => writeBytes (writeByte d b base v) b (base + 1) rest

/-- Byte-copy loop of `writei` (fs.c), mirror of `readiGo`. -/
def writeiGo : Nat → BInode → Disk → Nat → List Nat → Except Unit (BInode × Disk)
  | 0, ip, d, _, src => if src = [] then Except.ok (ip, d) else Except.error ()
  | fuel + 1, ip, d, off, src =>
    if src = [] then Except.ok (ip, d)
    else
      match bmap ip d (off / BSIZE) with
      | Except.error _ => Except.error ()
      | Except.ok (b, ip1, d1) =>
        let m := min src.length (BSIZE - off % BSIZE)
        writeiGo fuel ip1 (writeBytes d1 b (off % BSIZE) (src.take m)) (off + m)
          (src.drop m)

/-- `writei` (fs.c): device delegation as for `readi`; an offset beyond
the size, an overflowing `off + n`, or an end past MAXFILE*BSIZE give -1;
otherwise the bytes are written through the block map and, when the write
extends the file, the size is updated and persisted. -/
def writei (devw : Int → Option (Nat → Int)) (ip : BInode) (d : Disk)
    (src : List Nat) (off n : Nat) : Except Unit (Int × BInode × Disk) :=
  if ip.btype = T_DEV then
    if ip.major < 0 ∨ NDEV ≤ ip.major then Except.ok (-1, ip, d)
    else
      match devw ip.major with
      | Option.none => Except.ok (-1, ip, d)
      | some f => Except.ok (f n, ip, d)
  else if ip.size < off ∨ (off + n) % UINTMOD < off then Except.ok (-1, ip, d)
  else if MAXFILE * BSIZE < off + n then Except.ok (-1, ip, d)
  else
    match writeiGo n ip d off (src.take n) with
    | Except.error _ => Except.error ()
    | Except.ok (ip1, d1) =>
      if 0 < n ∧ ip1.size < off + n then
        let ip2 := { ip1 with size := off + n }
        Except.ok ((n : Int), ip2, iupdate ip2 d1)
      else Except.ok ((n : Int), ip1, d1)


theorem skipelemCore_some {path rest comp : List Char}
    (h : skipelemCore path = some (rest, comp)) :
    comp = (dropSlashes path).takeWhile notSlash ∧
    rest = dropSlashes ((dropSlashes path).dropWhile notSlash) := by
  unfold skipelemCore at h
  rcases hp : dropSlashes path with _ | ⟨c0, p'⟩ <;> rw [hp] at h
  · simp at h
  · simp only [Option.some.injEq, Prod.mk.injEq] at h
    exact ⟨h.2.symm, h.1.symm⟩

/-- Claim C9: on a NUL-free path with a next component `comp`, `skipelem`
writes exactly the first DIRSIZ bytes of the component with no NUL
terminator when the component is at least DIRSIZ long, and the component
followed by a NUL when shorter; the returned remainder is the suffix
after the component with every following slash stripped (in particular it
has no leading slash). -/
theorem skipelem_written_spec (path rest w : List Char)
    (hnul : ¬ NUL ∈ path) (h : skipelemWritten path = some (rest, w)) :
    (DIRSIZ ≤ ((dropSlashes path).takeWhile notSlash).length →
      w = ((dropSlashes path).takeWhile notSlash).take DIRSIZ ∧
      w.length = DIRSIZ ∧ ¬ NUL ∈ w) ∧
    (((dropSlashes path).takeWhile notSlash).length < DIRSIZ →
      w = ((dropSlashes path).takeWhile notSlash) ++ [NUL]) ∧
    ¬ rest.head? = some '/' ∧
    (∃ a b, path = a ++ ((dropSlashes path).takeWhile notSlash) ++ b ++ rest ∧
      (∀ c ∈ a, c = '/') ∧ (∀ c ∈ b, c = '/')) := by
  unfold skipelemWritten at h
  rcases hc : skipelemCore path with _ | ⟨rest0, comp0⟩ <;> rw [hc] at h
  · simp at h
  · simp only [Option.some.injEq, Prod.mk.injEq] at h
    obtain ⟨hr0, hw0⟩ := h
    obtain ⟨hcomp0, hrest0⟩ := skipelemCore_some hc
    subst hr0
    rw [hcomp0] at hw0
    have hcomp_sub : ∀ x ∈ (dropSlashes path).takeWhile notSlash, x ∈ path := by
      intro x hx
      exact List.dropWhile_subset _ (List.takeWhile_subset _ hx)
    refine ⟨?_, ?_, ?_, ?_⟩
    · intro hlen
      rw [← hw0, if_pos hlen]
      refine ⟨rfl, ?_, ?_⟩
      · simp [List.length_take, Nat.min_eq_left hlen]
      · intro hmem
        exact hnul (hcomp_sub _ (List.mem_of_mem_take hmem))
    · intro hlen
      rw [← hw0, if_neg (by omega)]
    · rw [hrest0]
      rcases hr : dropSlashes ((dropSlashes path).dropWhile notSlash) with _ | ⟨c1, r'⟩
      · simp
      · have hc1 : ¬ c1 = '/' := dropSlashes_head hr
        simp [hc1]
    · refine ⟨path.takeWhile isSlash,
        ((dropSlashes path).dropWhile notSlash).takeWhile isSlash,
        ?_, ?_, ?_⟩
      · rw [hrest0]
        simp only [dropSlashes]
        have e1 : path.takeWhile isSlash ++ path.dropWhile isSlash = path :=
          List.takeWhile_append_dropWhile ..
        have e2 : (path.dropWhile isSlash).takeWhile notSlash
            ++ (path.dropWhile isSlash).dropWhile notSlash = path.dropWhile isSlash :=
          List.takeWhile_append_dropWhile ..
        have e3 : ((path.dropWhile isSlash).dropWhile notSlash).takeWhile isSlash
            ++ ((path.dropWhile isSlash).dropWhile notSlash).dropWhile isSlash
            = (path.dropWhile isSlash).dropWhile notSlash :=
          List.takeWhile_append_dropWhile ..
        rw [List.append_assoc, List.append_assoc, e3, e2, e1]
      · intro c hc
        simpa [isSlash] using List.mem_takeWhile_imp hc
      · intro c hc
        simpa [isSlash] using List.mem_takeWhile_imp hc

/-- Witness for C9 at a concrete long component: path
"abcdefghijklmnopq//x" whose first component has 17 ≥ DIRSIZ chars. -/
theorem skipelem_written_spec_witness :
    (¬ NUL ∈ str "abcdefghijklmnopq//x") ∧
    skipelemWritten (str "abcdefghijklmnopq//x")
      = some (str "x", str "abcdefghijklmn") ∧
    ((DIRSIZ ≤ ((dropSlashes (str "abcdefghijklmnopq//x")).takeWhile
        notSlash).length →
      str "abcdefghijklmn" = ((dropSlashes (str "abcdefghijklmnopq//x")).takeWhile
        notSlash).take DIRSIZ ∧
      (str "abcdefghijklmn").length = DIRSIZ ∧ ¬ NUL ∈ str "abcdefghijklmn") ∧
    (((dropSlashes (str "abcdefghijklmnopq//x")).takeWhile
        notSlash).length < DIRSIZ →
      str "abcdefghijklmn" = ((dropSlashes (str "abcdefghijklmnopq//x")).takeWhile
        notSlash) ++ [NUL]) ∧
    ¬ (str "x").head? = some '/' ∧
    (∃ a b, str "abcdefghijklmnopq//x"
        = a ++ ((dropSlashes (str "abcdefghijklmnopq//x")).takeWhile
          notSlash) ++ b ++ str "x" ∧
      (∀ c ∈ a, c = '/') ∧ (∀ c ∈ b, c = '/'))) :=
  ⟨by decide, by decide,
    skipelem_written_spec (str "abcdefghijklmnopq//x") (str "x")
      (str "abcdefghijklmn") (by decide) (by decide)⟩

/-- Test family for `filereadlinki`'s budget, where the symlinks sit in a
non-final component: "/sA/f" with "sA" → "/sB" → … → "/d", and "/d/f" a
regular file, taking exactly `n` substitutions. -/
def chainiFS (n : Nat) : FS :=
  { inodes := fun j =>
      if j = 1 then
        dirInode ((3, str "d") :: (List.range n).map (fun i => (10 + i, sname i)))
      else if j = 2 then fileInode
      else if j = 3 then dirInode [(2, str "f")]
      else if 10 ≤ j ∧ j < 10 + n then
        symInode (if j + 1 < 10 + n then '/' :: sname (j - 10 + 1) else str "/d")
      else freeInode,
    rootIno := 1, cwdIno := 1 }

theorem dirlookupGo_eq_none (name : List Char) :
    ∀ (es : List (Nat × List Char)) (off : Nat),
    (∀ e ∈ es, e.1 = 0 ∨ ¬ namecmp name e.2 = 0) →
    dirlookupGo name es off = Option.none := by
  intro es
  induction es with
  | nil => intro off h; rfl
  | cons e tail ih =>
    intro off h
    obtain ⟨inum, ename⟩ := e
    have he := h (inum, ename) (by simp)
    by_cases h0 : inum = 0
    · simpa [dirlookupGo, h0] using ih _ (fun e he2 => h e (by simp [he2]))
    · rcases he with h1 | h2
      · exact absurd h1 h0
      · simpa [dirlookupGo, h0, h2] using ih _ (fun e he2 => h e (by simp [he2]))

/-- Claim C3, counterexample: directory lookup on a non-directory inode
does not return the recoverable "not found" result; it panics
(`dirlookup` executes `panic("dirlookup not DIR")`). -/
theorem dirlookup_nondir_counterexample :
    dirlookup fileInode (str "a") = Except.error () ∧
    ¬ dirlookup fileInode (str "a") = Except.ok Option.none := by
  constructor
  · rfl
  · intro h
    simp [dirlookup, fileInode] at h

/-- Claim C3, amended: for every non-directory inode `dirlookup` is a
fatal panic, not a recoverable "not found"; the recoverable "not found"
outcome is produced exactly when the inode is a directory and no live
entry matches the name. -/
theorem dirlookup_spec :
    (∀ (dp : Inode) (name : List Char), ¬ dp.itype = IType.dir →
      dirlookup dp name = Except.error ()) ∧
    (∀ (dp : Inode) (name : List Char), dp.itype = IType.dir →
      (∀ e ∈ dp.entries, e.1 = 0 ∨ ¬ namecmp name e.2 = 0) →
      dirlookup dp name = Except.ok Option.none) := by
  constructor
  · intro dp name h
    simp [dirlookup, h]
  · intro dp name h hmiss
    simp [dirlookup, h]
    exact dirlookupGo_eq_none name dp.entries 0 hmiss

/-- Witness for C3's amended theorem: a regular file panics, and a
directory holding only the entry "f" reports "not found" for "g". -/
theorem dirlookup_spec_witness :
    (¬ fileInode.itype = IType.dir ∧
      dirlookup fileInode (str "a") = Except.error ()) ∧
    ((dirInode [(2, str "f")]).itype = IType.dir ∧
      dirlookup (dirInode [(2, str "f")]) (str "g") = Except.ok Option.none) :=
  ⟨⟨by decide, dirlookup_spec.1 fileInode (str "a") (by decide)⟩,
   ⟨by decide, dirlookup_spec.2 (dirInode [(2, str "f")]) (str "g") (by decide)
      (by decide)⟩⟩

/-- Claim C1, counterexample: a chain of exactly 16 distinct symlink
substitutions with no repeats does NOT resolve; the budget counter
reaches zero on the 16th substitution and canonicalization returns -1
(for both variants). -/
theorem symlink_budget_counterexample :
    filereadlink (chainFS 16) (str "/sA") 100 = Except.ok Option.none ∧
    filereadlinki (chainiFS 16) (str "/sA/f") 100 = Except.ok Option.none ∧
    ¬ filereadlink (chainFS 16) (str "/sA") 100 = Except.ok (some (str "/f", 2)) := by
  refine ⟨by decide, by decide, by decide⟩

/-- Claim C1, amended: symlink cycles of length 1..16 fail with the cycle
error (-1); a chain of distinct substitutions resolves without error only
up to length 15, and a chain of exactly 16 also fails with -1 (the
counter `loops_left` is decremented and tested before the 16th restart). -/
theorem symlink_budget_amended :
    (∀ k < 16, filereadlink (cycleFS (k + 1)) (str "/sA") 100
      = Except.ok Option.none) ∧
    (∀ k < 16, filereadlinki (cycleFS (k + 1)) (str "/sA/f") 100
      = Except.ok Option.none) ∧
    (∀ n < 15, filereadlink (chainFS (n + 1)) (str "/sA") 100
      = Except.ok (some (str "/f", 2))) ∧
    (∀ n < 15, filereadlinki (chainiFS (n + 1)) (str "/sA/f") 100
      = Except.ok (some (str "/d/f", 4))) ∧
    filereadlink (chainFS 16) (str "/sA") 100 = Except.ok Option.none ∧
    filereadlinki (chainiFS 16) (str "/sA/f") 100 = Except.ok Option.none := by
  refine ⟨by decide, by decide, by decide, by decide, by decide, by decide⟩

/-- Witness for C1's amended theorem at concrete budget values: a cycle of
length 4 fails and a chain of length 15 resolves. -/
theorem symlink_budget_amended_witness :
    (3 < 16 ∧ filereadlink (cycleFS 4) (str "/sA") 100 = Except.ok Option.none) ∧
    (14 < 15 ∧ filereadlink (chainFS 15) (str "/sA") 100
      = Except.ok (some (str "/f", 2))) :=
  ⟨⟨by decide, symlink_budget_amended.1 3 (by decide)⟩,
   ⟨by decide, symlink_budget_amended.2.2.1 14 (by decide)⟩⟩

theorem rlInner_done_length (fs : FS) (rf : Bool) (bufsiz : Nat) :
    ∀ (fuel : Nat) (result path buf : List Char) (r : Nat),
    rlInner fs rf bufsiz fuel result path = RlStep.done buf r → r = buf.length := by
  intro fuel
  induction fuel with
  | zero =>
    intro result path buf r h
    simp [rlInner] at h
  | succ fuel ih =>
    intro result path buf r h
    unfold rlInner at h
    rcases hsc : skipelemCore path with _ | ⟨rest, comp⟩ <;> rw [hsc] at h
    · simp at h
    · dsimp only at h
      repeat' split at h
      all_goals first
        | exact ih _ _ _ _ h
        | (cases h; rfl)
        | simp_all

theorem rlOuter_done_length (fs : FS) (rf : Bool) (bufsiz : Nat) :
    ∀ (loops : Nat) (p buf : List Char) (r : Nat),
    rlOuter fs rf bufsiz loops p = Except.ok (some (buf, r)) → r = buf.length := by
  intro loops
  induction loops with
  | zero =>
    intro p buf r h
    simp [rlOuter] at h
  | succ loops ih =>
    intro p buf r h
    unfold rlOuter at h
    dsimp only at h
    split at h
    · simp at h
    · simp at h
    · rename_i buf0 r0 heq
      simp only [Except.ok.injEq, Option.some.injEq, Prod.mk.injEq] at h
      obtain ⟨hb, hr⟩ := h
      subst hb hr
      exact rlInner_done_length fs rf bufsiz _ _ _ _ _ heq
    · split at h
      · simp at h
      · exact ih _ _ _ h

/-- Claim C8: the canonicalization return value is inconsistent at the
root: for the input "/" both variants store "/" and return 2 (the length
including the NUL terminator), while on every other successful input the
return value is the canonical path's length excluding the terminator. -/
theorem readlink_root_return_inconsistency :
    (∀ (fs : FS) (bufsiz : Nat),
      filereadlink fs (str "/") bufsiz
        = Except.ok (some (str "/", (str "/").length + 1))) ∧
    (∀ (fs : FS) (bufsiz : Nat),
      filereadlinki fs (str "/") bufsiz
        = Except.ok (some (str "/", (str "/").length + 1))) ∧
    (∀ (fs : FS) (p : List Char) (bufsiz : Nat) (buf : List Char) (r : Nat),
      ¬ p = str "/" →
      filereadlink fs p bufsiz = Except.ok (some (buf, r)) → r = buf.length) ∧
    (∀ (fs : FS) (p : List Char) (bufsiz : Nat) (buf : List Char) (r : Nat),
      ¬ p = str "/" →
      filereadlinki fs p bufsiz = Except.ok (some (buf, r)) → r = buf.length) := by
  have hroot : str "/" = ['/'] := rfl
  refine ⟨fun fs bufsiz => rfl, fun fs bufsiz => rfl, ?_, ?_⟩
  · intro fs p bufsiz buf r hp h
    unfold filereadlink at h
    rw [hroot] at hp
    by_cases h0 : p = []
    · rw [if_pos h0] at h
      simp at h
    · rw [if_neg h0, if_neg hp] at h
      exact rlOuter_done_length fs true bufsiz _ _ _ _ h
  · intro fs p bufsiz buf r hp h
    unfold filereadlinki at h
    rw [hroot] at hp
    by_cases h0 : p = []
    · rw [if_pos h0] at h
      simp at h
    · rw [if_neg h0, if_neg hp] at h
      exact rlOuter_done_length fs false bufsiz _ _ _ _ h

/-- Witness for C8: a successful non-root canonicalization ("/f" on a
one-file system) returns the length of the output excluding the NUL. -/
theorem readlink_root_return_inconsistency_witness :
    (¬ str "/f" = str "/") ∧
    filereadlink (chainFS 1) (str "/f") 100 = Except.ok (some (str "/f", 2)) ∧
    (2 : Nat) = (str "/f").length :=
  ⟨by decide, by decide,
    readlink_root_return_inconsistency.2.2.1 (chainFS 1) (str "/f") 100
      (str "/f") 2 (by decide) (by decide)⟩

/-- Concrete system for password-lock witnesses: "/f" is a regular file
protected with password "pw". -/
def pwFS : FS :=
  { inodes := fun j =>
      if j = 1 then dirInode [(2, str "f")]
      else if j = 2 then { fileInode with password := str "pw" } else freeInode,
    rootIno := 1, cwdIno := 1 }

/-- Claim C5: on a path that canonicalizes and resolves to an inode,
`unprotect` with an empty stored password succeeds as a no-op; with a
non-matching password it fails with -1 leaving all state untouched; with
a matching password it succeeds, clearing exactly that inode's password
field and nothing else. -/
theorem filefunprot_spec (fs : FS) (path pw fp : List Char) (l ino : Nat)
    (hcanon : filereadlinki fs path MAXPATH = Except.ok (some (fp, l)))
    (hres : namei fs fp = Except.ok (some ino))
    (hfree : ¬ (fs.inodes ino).itype = IType.free) :
    ((fs.inodes ino).password = [] →
      filefunprot fs path pw = Except.ok (0, fs)) ∧
    (¬ (fs.inodes ino).password = [] →
      (¬ strncmp (fs.inodes ino).password pw PASSLEN = 0 →
        filefunprot fs path pw = Except.ok (-1, fs)) ∧
      (strncmp (fs.inodes ino).password pw PASSLEN = 0 →
        filefunprot fs path pw
          = Except.ok (0, setInode fs ino { fs.inodes ino with password := [] }))) := by
  refine ⟨?_, fun hpw => ⟨?_, ?_⟩⟩
  · intro hemp
    simp [filefunprot, hcanon, hres, hfree, hemp]
  · intro hne
    simp [filefunprot, hcanon, hres, hfree, hpw, hne]
  · intro heq
    simp [filefunprot, hcanon, hres, hfree, hpw, heq]

/-- Witness for C5 on `pwFS`: unprotecting "/f" with the matching password
"pw" succeeds and clears the password field. -/
theorem filefunprot_spec_witness :
    filereadlinki pwFS (str "/f") MAXPATH = Except.ok (some (str "/f", 2)) ∧
    namei pwFS (str "/f") = Except.ok (some 2) ∧
    (¬ (pwFS.inodes 2).password = []) ∧
    strncmp (pwFS.inodes 2).password (str "pw") PASSLEN = 0 ∧
    filefunprot pwFS (str "/f") (str "pw")
      = Except.ok (0, setInode pwFS 2 { pwFS.inodes 2 with password := [] }) :=
  ⟨by decide, by decide, by decide, by decide,
    ((filefunprot_spec pwFS (str "/f") (str "pw") (str "/f") 2 2
      (by decide) (by decide) (by decide)).2 (by decide)).2 (by decide)⟩

theorem unlock_inode_mem {tbl : Nat → List Nat} {ino pid : Nat}
    {tbl2 : Nat → List Nat}
    (h : unlock_inode tbl ino pid = Except.ok tbl2) : pid ∈ tbl2 ino := by
  unfold unlock_inode at h
  by_cases hin : (tbl ino).contains pid
  · rw [if_pos hin] at h
    simp only [Except.ok.injEq] at h
    rw [← h]
    exact List.elem_iff.1 hin
  · rw [if_neg hin] at h
    rcases hidx : List.findIdx? (fun x => x = 0) (tbl ino) with _ | i <;>
      rw [hidx] at h
    · simp at h
    · simp only [Except.ok.injEq] at h
      rw [← h]
      obtain ⟨hlt, -, -⟩ := List.findIdx?_eq_some_iff_getElem.1 hidx
      simp only [if_pos rfl]
      exact List.mem_set (tbl ino) i hlt pid

/-- Claim C6: grant-exemption on a resolving path succeeds only when the
supplied password matches the stored one; success records the caller's
pid in that inode's exemption-table row; re-granting to an
already-present pid is a no-op; a mismatch returns the -1 error; and with
the pid absent and no free (zero) slot in the row the condition is a
fatal panic, not a returned error. -/
theorem filefunlock_spec (fs : FS) (tbl : Nat → List Nat) (pid : Nat)
    (path pw fp : List Char) (l ino : Nat)
    (hcanon : filereadlinki fs path MAXPATH = Except.ok (some (fp, l)))
    (hres : namei fs fp = Except.ok (some ino))
    (hfree : ¬ (fs.inodes ino).itype = IType.free) :
    (∀ tbl2, filefunlock fs tbl pid path pw = Except.ok (0, tbl2) →
      strncmp (fs.inodes ino).password pw PASSLEN = 0 ∧ pid ∈ tbl2 ino) ∧
    (¬ (fs.inodes ino).password = [] →
      ¬ strncmp (fs.inodes ino).password pw PASSLEN = 0 →
      filefunlock fs tbl pid path pw = Except.ok (-1, tbl)) ∧
    (¬ (fs.inodes ino).password = [] →
      strncmp (fs.inodes ino).password pw PASSLEN = 0 →
      pid ∈ tbl ino →
      filefunlock fs tbl pid path pw = Except.ok (0, tbl)) ∧
    (¬ (fs.inodes ino).password = [] →
      strncmp (fs.inodes ino).password pw PASSLEN = 0 →
      ¬ pid ∈ tbl ino →
      (∀ x ∈ tbl ino, ¬ x = 0) →
      filefunlock fs tbl pid path pw = Except.error ()) := by
  refine ⟨?_, ?_, ?_, ?_⟩
  · intro tbl2 hok
    by_cases hemp : (fs.inodes ino).password = []
    · simp [filefunlock, hcanon, hres, hfree, hemp] at hok
    · by_cases hm : strncmp (fs.inodes ino).password pw PASSLEN = 0
      · refine ⟨hm, ?_⟩
        simp only [filefunlock] at hok
        rw [hcanon] at hok
        simp only at hok
        rw [hres] at hok
        simp only [if_neg hfree, if_neg hemp, hm] at hok
        rw [if_neg (by simp)] at hok
        rcases hu : unlock_inode tbl ino pid with e | tbl3 <;> rw [hu] at hok
        · simp at hok
        · simp only [Except.ok.injEq, Prod.mk.injEq, true_and] at hok
          rw [← hok]
          exact unlock_inode_mem hu
      · simp [filefunlock, hcanon, hres, hfree, hemp, hm] at hok
  · intro hemp hm
    simp [filefunlock, hcanon, hres, hfree, hemp, hm]
  · intro hemp hm hin
    have hin2 : (tbl ino).contains pid = true := List.elem_iff.2 hin
    simp only [filefunlock]
    rw [hcanon]
    simp only
    rw [hres]
    simp only [if_neg hfree, if_neg hemp, hm]
    rw [if_neg (by simp)]
    unfold unlock_inode
    rw [if_pos hin2]
  · intro hemp hm hout hfull
    have hout2 : ¬ (tbl ino).contains pid = true := by
      intro hc
      exact hout (List.elem_iff.1 hc)
    have hidx : List.findIdx? (fun x => x = 0) (tbl ino) = Option.none := by
      rw [List.findIdx?_eq_none_iff]
      intro x hx
      simpa using hfull x hx
    simp only [filefunlock]
    rw [hcanon]
    simp only
    rw [hres]
    simp only [if_neg hfree, if_neg hemp, hm]
    rw [if_neg (by simp)]
    unfold unlock_inode
    rw [if_neg hout2, hidx]

/-- Exemption table whose rows hold pid 5 in their first slot. -/
def tblOne : Nat → List Nat := fun _ => (List.replicate NPROC 0).set 0 5

/-- Exemption table with every slot of every row occupied (no free slot). -/
def tblFull : Nat → List Nat := fun _ => List.replicate NPROC 7

/-- Witness for C6 on `pwFS`: re-granting to the already-present pid 5 is
a no-op, and granting to an absent pid with a full row panics. -/
theorem filefunlock_spec_witness :
    (5 ∈ tblOne 2 ∧
      filefunlock pwFS tblOne 5 (str "/f") (str "pw") = Except.ok (0, tblOne)) ∧
    ((¬ 5 ∈ tblFull 2) ∧ (∀ x ∈ tblFull 2, ¬ x = 0) ∧
      filefunlock pwFS tblFull 5 (str "/f") (str "pw") = Except.error ()) :=
  ⟨⟨by decide,
    (filefunlock_spec pwFS tblOne 5 (str "/f") (str "pw") (str "/f") 2 2
      (by decide) (by decide) (by decide)).2.2.1 (by decide) (by decide)
      (by decide)⟩,
   ⟨by decide, by decide,
    (filefunlock_spec pwFS tblFull 5 (str "/f") (str "pw") (str "/f") 2 2
      (by decide) (by decide) (by decide)).2.2.2 (by decide) (by decide)
      (by decide) (by decide)⟩⟩

/-- Empty device-switch table (no read/write handlers registered). -/
def devNone : Int → Option (Nat → Int) := fun _ => Option.none

/-- A blank dinode slot. -/
def dBlank : DInode :=
  { dtype := 0, dmajor := 0, dminor := 0, dnlink := 0, dsize := 0,
    daddrs := fun _ => 0, dindirect2 := 0, dpassword := [] }

/-- A small disk: 64 blocks, only block 0 marked in use, all content 0. -/
def disk0 : Disk :=
  { nblocks := 64, bitmap := fun b => b = 0, blocks := fun _ _ => 0,
    bytes := fun _ _ => 0, dinodes := fun _ => dBlank }

/-- A regular-file in-memory inode of size 5 with no blocks mapped. -/
def bIno5 : BInode :=
  { inum := 7, ref := 1, busy := false, valid := true, btype := T_FILE,
    major := 0, minor := 0, nlink := 1, size := 5, addrs := fun _ => 0,
    indirect2 := 0, bpassword := [] }

/-- Claim C2, counterexample: reading strictly beyond the size does not
succeed with zero bytes; `readi` returns -1 (here size 5, offset 6). -/
theorem readi_beyond_counterexample :
    bIno5.size = 5 ∧ ¬ bIno5.btype = T_DEV ∧
    (readi devNone bIno5 disk0 6 1).map (fun r => r.1) = Except.ok (-1) := by
  refine ⟨rfl, by decide, rfl⟩

/-- Claim C2, amended: for a non-device inode, `readi` at offset exactly
`size` succeeds with zero bytes, but any offset strictly beyond the size
returns -1; an `off + n` that overflows 32-bit offset arithmetic returns
-1; otherwise the count is clamped: a successful read with `off + n`
past the size returns exactly `size - off` bytes, and one with
`off + n ≤ size` returns exactly `n`. -/
theorem readi_clamp_spec (devr : Int → Option (Nat → Int)) (ip : BInode)
    (d : Disk) (off n : Nat)
    (hdev : ¬ ip.btype = T_DEV) (hsz : ip.size < UINTMOD)
    (hoff : off < UINTMOD) (hn : n < UINTMOD) :
    (ip.size < off → readi devr ip d off n = Except.ok (-1, [], ip, d)) ∧
    (off ≤ ip.size → (off + n) % UINTMOD < off →
      readi devr ip d off n = Except.ok (-1, [], ip, d)) ∧
    (off = ip.size → ¬ (off + n) % UINTMOD < off →
      readi devr ip d off n = Except.ok (0, [], ip, d)) ∧
    (ip.size < off + n → ¬ (off + n) % UINTMOD < off → off ≤ ip.size →
      ∀ r, readi devr ip d off n = Except.ok r →
        r.1 = ((ip.size - off : Nat) : Int)) ∧
    (off + n ≤ ip.size →
      ∀ r, readi devr ip d off n = Except.ok r → r.1 = (n : Int)) := by
  refine ⟨?_, ?_, ?_, ?_, ?_⟩
  · intro hbeyond
    unfold readi
    rw [if_neg hdev, if_pos (Or.inl hbeyond)]
  · intro hle hovf
    unfold readi
    rw [if_neg hdev, if_pos (Or.inr hovf)]
  · intro heq hovf
    unfold readi
    rw [if_neg hdev, if_neg (by push_neg; exact ⟨by omega, by omega⟩)]
    have hn1 : (if ip.size < off + n then ip.size - off else n) = 0 := by
      split <;> omega
    rw [hn1]
    rfl
  · intro hpast hovf hle r hok
    unfold readi at hok
    rw [if_neg hdev, if_neg (by push_neg; exact ⟨by omega, by omega⟩)] at hok
    rw [if_pos hpast] at hok
    dsimp only at hok
    rcases hgo : readiGo (ip.size - off) ip d off (ip.size - off) with e | res <;>
      rw [hgo] at hok
    · simp at hok
    · simp only [Except.ok.injEq] at hok
      rw [← hok]
  · intro hle r hok
    have hovf : ¬ (off + n) % UINTMOD < off := by
      rw [Nat.mod_eq_of_lt (by omega)]
      omega
    unfold readi at hok
    rw [if_neg hdev, if_neg (by push_neg; exact ⟨by omega, by omega⟩)] at hok
    rw [if_neg (by omega)] at hok
    dsimp only at hok
    rcases hgo : readiGo n ip d off n with e | res <;> rw [hgo] at hok
    · simp at hok
    · simp only [Except.ok.injEq] at hok
      rw [← hok]

/-- Witness for C2's amended theorem: at offset = size = 5 the read
returns 0 bytes; a full in-range read of 3 bytes at offset 1 returns 3. -/
theorem readi_clamp_spec_witness :
    (¬ bIno5.btype = T_DEV) ∧ (6 : Nat) = bIno5.size + 1 ∧
    readi devNone bIno5 disk0 5 7 = Except.ok (0, [], bIno5, disk0) ∧
    (readi devNone bIno5 disk0 6 1).map (fun r => r.1) = Except.ok (-1) :=
  ⟨by decide, by decide,
    (readi_clamp_spec devNone bIno5 disk0 5 7 (by decide) (by decide)
      (by decide) (by decide)).2.2.1 (by decide) (by decide),
    readi_beyond_counterexample.2.2⟩

/-- Claim C10: for a non-device inode, a write starting strictly past the
current size returns -1 and leaves the inode (size, block map) and the
disk (content, bitmap, dinodes) completely unchanged: writes may begin
only at offsets in [0, size], so no hole past the end can be created. -/
theorem writei_no_hole (devw : Int → Option (Nat → Int)) (ip : BInode)
    (d : Disk) (src : List Nat) (off n : Nat)
    (hdev : ¬ ip.btype = T_DEV) (hbeyond : ip.size < off) :
    writei devw ip d src off n = Except.ok (-1, ip, d) := by
  unfold writei
  rw [if_neg hdev, if_pos (Or.inl hbeyond)]

/-- Witness for C10: writing 1 byte at offset 6 of the size-5 file fails
with -1 and changes nothing. -/
theorem writei_no_hole_witness :
    (¬ bIno5.btype = T_DEV) ∧ bIno5.size < 6 ∧
    writei devNone bIno5 disk0 [65] 6 1 = Except.ok (-1, bIno5, disk0) :=
  ⟨by decide, by decide,
    writei_no_hole devNone bIno5 disk0 [65] 6 1 (by decide) (by decide)⟩

theorem scanFree_spec {bm : Nat → Bool} :
    ∀ {fuel i b : Nat}, scanFree bm i fuel = some b → bm b = false := by
  intro fuel
  induction fuel with
  | zero => intro i b h; simp [scanFree] at h
  | succ fuel ih =>
    intro i b h
    unfold scanFree at h
    split at h
    · cases h
      assumption
    · exact ih h

theorem balloc_eq {d : Disk} {b : Nat} {d2 : Disk}
    (h : balloc d = Except.ok (b, d2)) :
    d.bitmap b = false ∧
    d2 = { d with
      bitmap := fun x => if x = b then true else d.bitmap x,
      blocks := fun x => if x = b then (fun _ => 0) else d.blocks x,
      bytes := fun x => if x = b then (fun _ => 0) else d.bytes x } := by
  unfold balloc at h
  rcases hs : scanFree d.bitmap 0 d.nblocks with _ | b0 <;> rw [hs] at h
  · simp at h
  · simp only [Except.ok.injEq, Prod.mk.injEq] at h
    obtain ⟨hb, hd⟩ := h
    subst hb
    exact ⟨scanFree_spec hs, hd.symm⟩

theorem balloc_nonzero {d : Disk} {b : Nat} {d2 : Disk}
    (h : balloc d = Except.ok (b, d2)) (h0 : d.bitmap 0 = true) : ¬ b = 0 := by
  intro hb0
  have := (balloc_eq h).1
  rw [hb0, h0] at this
  cases this

theorem bmap_idem_direct {ip : BInode} {d : Disk} {bn a : Nat} {ip1 : BInode}
    {d1 : Disk} (h0 : d.bitmap 0 = true) (hlt : bn < NDIRECT)
    (h : bmap ip d bn = Except.ok (a, ip1, d1)) :
    bmap ip1 d1 bn = Except.ok (a, ip1, d1) := by
  unfold bmap at h ⊢
  rw [if_pos hlt] at h ⊢
  by_cases hz : ip.addrs bn = 0
  · rw [if_pos hz] at h
    rcases hb : balloc d with e | ⟨addr, dd⟩ <;> rw [hb] at h
    · simp at h
    · simp only [Except.ok.injEq, Prod.mk.injEq] at h
      obtain ⟨ha, hip, hd⟩ := h
      have haddr : ¬ addr = 0 := balloc_nonzero hb h0
      subst ha hip hd
      simp [setAddr, haddr]
  · rw [if_neg hz] at h
    simp only [Except.ok.injEq, Prod.mk.injEq] at h
    obtain ⟨ha, hip, hd⟩ := h
    subst ha hip hd
    rw [if_neg hz]

theorem loadEntry_ne_zero {d : Disk} {blk slot e : Nat} {d2 : Disk}
    (h : loadEntry d blk slot = Except.ok (e, d2)) (h0 : d.bitmap 0 = true) :
    ¬ e = 0 := by
  unfold loadEntry at h
  split at h
  · rcases hb : balloc d with e0 | ⟨addr, dd⟩ <;> rw [hb] at h
    · simp at h
    · simp only [Except.ok.injEq, Prod.mk.injEq] at h
      rw [← h.1]
      exact balloc_nonzero hb h0
  · simp only [Except.ok.injEq, Prod.mk.injEq] at h
    rw [← h.1]
    assumption

theorem loadEntry_slot {d : Disk} {blk slot e : Nat} {d2 : Disk}
    (h : loadEntry d blk slot = Except.ok (e, d2)) :
    d2.blocks blk slot = e := by
  unfold loadEntry at h
  split at h
  · rcases hb : balloc d with e0 | ⟨addr, dd⟩ <;> rw [hb] at h
    · simp at h
    · simp only [Except.ok.injEq, Prod.mk.injEq] at h
      rw [← h.2, ← h.1]
      simp [writeSlot]
  · simp only [Except.ok.injEq, Prod.mk.injEq] at h
    rw [← h.2, ← h.1]

theorem loadEntry_idem {d : Disk} {blk slot e : Nat} {d2 : Disk}
    (h : loadEntry d blk slot = Except.ok (e, d2)) (h0 : d.bitmap 0 = true) :
    loadEntry d2 blk slot = Except.ok (e, d2) := by
  have h1 := loadEntry_ne_zero h h0
  have h2 := loadEntry_slot h
  unfold loadEntry
  rw [h2, if_neg h1]

theorem loadEntry_bitmap_mono {d : Disk} {blk slot e : Nat} {d2 : Disk}
    (h : loadEntry d blk slot = Except.ok (e, d2)) :
    ∀ x, d.bitmap x = true → d2.bitmap x = true := by
  intro x hx
  unfold loadEntry at h
  split at h
  · rcases hb : balloc d with e0 | ⟨addr, dd⟩ <;> rw [hb] at h
    · simp at h
    · simp only [Except.ok.injEq, Prod.mk.injEq] at h
      rw [← h.2]
      rw [(balloc_eq hb).2]
      simp only [writeSlot]
      by_cases hxa : x = addr <;> simp [hxa, hx]
  · simp only [Except.ok.injEq, Prod.mk.injEq] at h
    rw [← h.2]
    exact hx

theorem loadEntry_frame {d : Disk} {blk slot e : Nat} {d2 : Disk}
    (h : loadEntry d blk slot = Except.ok (e, d2)) (x : Nat)
    (hxb : ¬ x = blk) (hx : d.bitmap x = true) :
    ∀ s, d2.blocks x s = d.blocks x s := by
  intro s
  unfold loadEntry at h
  split at h
  · rcases hb : balloc d with e0 | ⟨addr, dd⟩ <;> rw [hb] at h
    · simp at h
    · simp only [Except.ok.injEq, Prod.mk.injEq] at h
      rw [← h.2]
      have hxa : ¬ x = addr := by
        intro he
        have := (balloc_eq hb).1
        rw [← he, hx] at this
        cases this
      rw [(balloc_eq hb).2]
      simp [writeSlot, hxb, hxa]
  · simp only [Except.ok.injEq, Prod.mk.injEq] at h
    rw [← h.2]

theorem loadEntry_ne {d : Disk} {blk slot e : Nat} {d2 : Disk} {y : Nat}
    (h : loadEntry d blk slot = Except.ok (e, d2)) (hy : d.bitmap y = true)
    (hslot : ¬ d.blocks blk slot = 0 → ¬ d.blocks blk slot = y) : ¬ e = y := by
  unfold loadEntry at h
  split at h
  · rcases hb : balloc d with e0 | ⟨addr, dd⟩ <;> rw [hb] at h
    · simp at h
    · simp only [Except.ok.injEq, Prod.mk.injEq] at h
      rw [← h.1]
      intro he
      have := (balloc_eq hb).1
      rw [he, hy] at this
      cases this
  · simp only [Except.ok.injEq, Prod.mk.injEq] at h
    rw [← h.1]
    exact hslot (by assumption)

theorem bmap_idem_single {ip : BInode} {d : Disk} {bn a : Nat} {ip1 : BInode}
    {d1 : Disk} (h0 : d.bitmap 0 = true) (hge : ¬ bn < NDIRECT)
    (hlt : bn - NDIRECT < NINDIRECT)
    (h : bmap ip d bn = Except.ok (a, ip1, d1)) :
    bmap ip1 d1 bn = Except.ok (a, ip1, d1) := by
  unfold bmap at h ⊢
  rw [if_neg hge, if_pos hlt] at h ⊢
  dsimp only at h ⊢
  by_cases hz : ip.addrs NDIRECT = 0
  · rw [if_pos hz] at h
    rcases hbA : balloc d with e | ⟨A, dA⟩ <;> rw [hbA] at h
    · simp at h
    · dsimp only at h
      have hA0 : ¬ A = 0 := balloc_nonzero hbA h0
      have hdA0 : dA.bitmap 0 = true := by
        rw [(balloc_eq hbA).2]
        by_cases h00 : (0 : Nat) = A <;> simp [h00, h0]
      rcases hle : loadEntry dA A (bn - NDIRECT) with e2 | ⟨addr, d2⟩ <;>
        rw [hle] at h
      · simp at h
      · simp only [Except.ok.injEq, Prod.mk.injEq] at h
        obtain ⟨ha, hip, hd⟩ := h
        have haddr : ¬ addr = 0 := loadEntry_ne_zero hle hdA0
        subst ha hip hd
        rw [if_neg (by simp [setAddr, hA0])]
        dsimp only
        have hsel : setAddr ip.addrs NDIRECT A NDIRECT = A := by simp [setAddr]
        rw [hsel, loadEntry_idem hle hdA0]
  · rw [if_neg hz] at h
    dsimp only at h
    rcases hle : loadEntry d (ip.addrs NDIRECT) (bn - NDIRECT) with e2 | ⟨addr, d2⟩ <;>
      rw [hle] at h
    · simp at h
    · simp only [Except.ok.injEq, Prod.mk.injEq] at h
      obtain ⟨ha, hip, hd⟩ := h
      subst ha hip hd
      rw [if_neg hz]
      dsimp only
      rw [loadEntry_idem hle h0]

theorem double_tail {dI : Disk} {I jd jm mid addr : Nat} {d2 d3 : Disk}
    (hdI0 : dI.bitmap 0 = true) (hbmI : dI.bitmap I = true)
    (hslotI : ¬ dI.blocks I jd = 0 → ¬ dI.blocks I jd = I)
    (hle1 : loadEntry dI I jd = Except.ok (mid, d2))
    (hle2 : loadEntry d2 mid jm = Except.ok (addr, d3)) :
    loadEntry d3 I jd = Except.ok (mid, d3) ∧
    loadEntry d3 mid jm = Except.ok (addr, d3) := by
  have hmid0 : ¬ mid = 0 := loadEntry_ne_zero hle1 hdI0
  have hmidI : ¬ mid = I := loadEntry_ne hle1 hbmI hslotI
  have hd20 : d2.bitmap 0 = true := loadEntry_bitmap_mono hle1 0 hdI0
  have hbmI2 : d2.bitmap I = true := loadEntry_bitmap_mono hle1 I hbmI
  have hslot2 : d2.blocks I jd = mid := loadEntry_slot hle1
  have hframe : ∀ s, d3.blocks I s = d2.blocks I s :=
    loadEntry_frame hle2 I (fun he => hmidI he.symm) hbmI2
  constructor
  · unfold loadEntry
    rw [hframe jd, hslot2, if_neg hmid0]
  · exact loadEntry_idem hle2 hd20

theorem bmap_idem_double {ip : BInode} {d : Disk} {bn a : Nat} {ip1 : BInode}
    {d1 : Disk} (h0 : d.bitmap 0 = true)
    (hwf : ¬ ip.indirect2 = 0 → d.bitmap ip.indirect2 = true ∧
      ∀ j, ¬ d.blocks ip.indirect2 j = 0 → ¬ d.blocks ip.indirect2 j = ip.indirect2)
    (hge1 : ¬ bn < NDIRECT) (hge2 : ¬ bn - NDIRECT < NINDIRECT)
    (hlt : bn - NDIRECT - NINDIRECT < NINDIRECT * NINDIRECT)
    (h : bmap ip d bn = Except.ok (a, ip1, d1)) :
    bmap ip1 d1 bn = Except.ok (a, ip1, d1) := by
  unfold bmap at h ⊢
  rw [if_neg hge1, if_neg hge2, if_pos hlt] at h ⊢
  dsimp only at h ⊢
  by_cases hz : ip.indirect2 = 0
  · rw [if_pos hz] at h
    rcases hbI : balloc d with e | ⟨I, dI⟩ <;> rw [hbI] at h
    · simp at h
    · dsimp only at h
      have hI0 : ¬ I = 0 := balloc_nonzero hbI h0
      have hdI0 : dI.bitmap 0 = true := by
        rw [(balloc_eq hbI).2]
        by_cases h00 : (0 : Nat) = I <;> simp [h00, h0]
      have hbmI : dI.bitmap I = true := by
        rw [(balloc_eq hbI).2]
        simp
      have hslotI : ¬ dI.blocks I ((bn - NDIRECT - NINDIRECT) / NINDIRECT) = 0 →
          ¬ dI.blocks I ((bn - NDIRECT - NINDIRECT) / NINDIRECT) = I := by
        intro hne
        exfalso
        apply hne
        rw [(balloc_eq hbI).2]
        simp
      rcases hle1 : loadEntry dI I ((bn - NDIRECT - NINDIRECT) / NINDIRECT)
        with e | ⟨mid, d2⟩ <;> rw [hle1] at h
      · simp at h
      · dsimp only at h
        rcases hle2 : loadEntry d2 mid ((bn - NDIRECT - NINDIRECT) % NINDIRECT)
          with e | ⟨addr, d3⟩ <;> rw [hle2] at h
        · simp at h
        · simp only [Except.ok.injEq, Prod.mk.injEq] at h
          obtain ⟨ha, hip, hd⟩ := h
          obtain ⟨f1, f2⟩ := double_tail hdI0 hbmI hslotI hle1 hle2
          subst ha hip hd
          rw [if_neg (show ¬ ({ ip with indirect2 := I } : BInode).indirect2 = 0 by
            simpa using hI0)]
          dsimp only
          rw [f1]
          dsimp only
          rw [f2]
  · rw [if_neg hz] at h
    dsimp only at h
    obtain ⟨hbmI, hslotI⟩ := hwf hz
    rcases hle1 : loadEntry d ip.indirect2 ((bn - NDIRECT - NINDIRECT) / NINDIRECT)
      with e | ⟨mid, d2⟩ <;> rw [hle1] at h
    · simp at h
    · dsimp only at h
      rcases hle2 : loadEntry d2 mid ((bn - NDIRECT - NINDIRECT) % NINDIRECT)
        with e | ⟨addr, d3⟩ <;> rw [hle2] at h
      · simp at h
      · simp only [Except.ok.injEq, Prod.mk.injEq] at h
        obtain ⟨ha, hip, hd⟩ := h
        obtain ⟨f1, f2⟩ := double_tail h0 hbmI
          (hslotI ((bn - NDIRECT - NINDIRECT) / NINDIRECT)) hle1 hle2
        subst ha hip hd
        rw [if_neg hz]
        dsimp only
        rw [f1]
        dsimp only
        rw [f2]

/-- Claim C7: for every inode and block index within
NDIRECT + NINDIRECT + NINDIRECT² capacity, the block map is idempotent:
if a call returns block `a` leaving state (ip1, d1), calling again with
the same index returns the same block number and leaves the state
untouched (no new allocation).  Wellformedness asks only that block 0 is
marked in use and that a nonzero double-indirect pointer is marked in use
and does not appear among its own entries. -/
theorem bmap_idempotent (ip : BInode) (d : Disk) (bn a : Nat) (ip1 : BInode)
    (d1 : Disk)
    (hbn : bn < NDIRECT + NINDIRECT + NINDIRECT * NINDIRECT)
    (h0 : d.bitmap 0 = true)
    (hwf : ¬ ip.indirect2 = 0 → d.bitmap ip.indirect2 = true ∧
      ∀ j, ¬ d.blocks ip.indirect2 j = 0 → ¬ d.blocks ip.indirect2 j = ip.indirect2)
    (h : bmap ip d bn = Except.ok (a, ip1, d1)) :
    bmap ip1 d1 bn = Except.ok (a, ip1, d1) := by
  by_cases h1 : bn < NDIRECT
  · exact bmap_idem_direct h0 h1 h
  · by_cases h2 : bn - NDIRECT < NINDIRECT
    · exact bmap_idem_single h0 h1 h2 h
    · exact bmap_idem_double h0 hwf h1 h2 (by omega) h

/-- Witness for C7: mapping double-indirect index 145 on the empty disk
allocates blocks 1 (double-indirect), 2 (mid) and 3 (data); the repeat
call returns the same block 3 with the state unchanged. -/
theorem bmap_idempotent_witness :
    145 < NDIRECT + NINDIRECT + NINDIRECT * NINDIRECT ∧
    disk0.bitmap 0 = true ∧
    (bmap bIno5 disk0 145).map (fun r => r.1) = Except.ok 3 ∧
    ∃ a ip1 d1, bmap bIno5 disk0 145 = Except.ok (a, ip1, d1) ∧
      bmap ip1 d1 145 = Except.ok (a, ip1, d1) := by
  refine ⟨by decide, by decide, by decide, ?_⟩
  rcases hb : bmap bIno5 disk0 145 with e | ⟨a, ip1, d1⟩
  · exfalso
    have hm : (bmap bIno5 disk0 145).map (fun r => r.1) = Except.ok 3 := by decide
    rw [hb] at hm
    simp [Except.map] at hm
  · refine ⟨a, ip1, d1, rfl, ?_⟩
    exact bmap_idempotent bIno5 disk0 145 a ip1 d1 (by decide) (by decide)
      (fun hz => absurd rfl hz) hb

/-- Nonzero direct blocks of an inode, in the order `itrunc` frees them. -/
def directBlocks (ip : BInode) : List Nat :=
  ((List.range NDIRECT).map ip.addrs).filter (fun b => ¬ b = 0)

/-- Nonzero single-indirect data blocks followed by the index block
itself (the order `itrunc` frees them); empty when unmapped. -/
def indBlocks (ip : BInode) (d : Disk) : List Nat :=
  if ip.addrs NDIRECT = 0 then []
  else ((List.range NINDIRECT).map (d.blocks (ip.addrs NDIRECT))).filter
        (fun b => ¬ b = 0)
      ++ [ip.addrs NDIRECT]

/-- For one mid-level entry of the double-indirect block: its nonzero data
blocks followed by the mid block itself. -/
def midBlocks (d : Disk) (m : Nat) : List Nat :=
  if m = 0 then []
  else ((List.range NINDIRECT).map (d.blocks m)).filter (fun b => ¬ b = 0) ++ [m]

/-- All blocks reachable through the double-indirect pointer, then the
double-indirect block itself; empty when unmapped. -/
def dblBlocks (ip : BInode) (d : Disk) : List Nat :=
  if ip.indirect2 = 0 then []
  else (List.range NINDIRECT).flatMap (fun i => midBlocks d (d.blocks ip.indirect2 i))
      ++ [ip.indirect2]

/-- Every block currently owned by the inode's block map (direct,
single-indirect, double-indirect, including the index blocks), in the
order `itrunc` frees them. -/
def mappedBlocks (ip : BInode) (d : Disk) : List Nat :=
  directBlocks ip ++ indBlocks ip d ++ dblBlocks ip d

/-- Claim C4, counterexample: one `iput` on a cached inode with reference
count 1, link count 1 and the valid flag set drops the reference count to
zero but does NOT clear the flags: the valid flag stays set, so the slot
is not left "fully free (reference count zero, flags cleared)". -/
theorem iput_flags_counterexample :
    bIno5.ref = 1 ∧ bIno5.nlink = 1 ∧ bIno5.valid = true ∧
    (iputN 1 bIno5 disk0).map (fun p => (p.1.ref, p.1.valid, p.1.busy))
      = Except.ok (0, true, false) ∧
    ¬ ((0, true, false) : Nat × Bool × Bool) = (0, false, false) := by
  refine ⟨rfl, rfl, rfl, by decide, by decide⟩

theorem truncEntries_go (a : Nat) (l : List Nat) :
    ∀ (ip : BInode) (d : Disk),
    ((l.map (d.blocks a)).filter (fun x => ¬ x = 0)).Nodup →
    (∀ b ∈ (l.map (d.blocks a)).filter (fun x => ¬ x = 0), d.bitmap b = true) →
    ∃ d2, exFold (truncEntryStep a) (ip, d) l = Except.ok (ip, d2) ∧
      (∀ b, d2.bitmap b =
        if b ∈ (l.map (d.blocks a)).filter (fun x => ¬ x = 0) then false
        else d.bitmap b) ∧
      d2.blocks = d.blocks ∧ d2.bytes = d.bytes ∧ d2.dinodes = d.dinodes ∧
      d2.nblocks = d.nblocks := by
  induction l with
  | nil =>
    intro ip d _ _
    exact ⟨d, rfl, by simp, rfl, rfl, rfl, rfl⟩
  | cons j l ih =>
    intro ip d hnd hbits
    by_cases hz : d.blocks a j = 0
    · have hstep : truncEntryStep a (ip, d) j = Except.ok (ip, d) := by
        simp [truncEntryStep, hz]
      have hfil : ((j :: l).map (d.blocks a)).filter (fun x => ¬ x = 0)
          = (l.map (d.blocks a)).filter (fun x => ¬ x = 0) := by
        simp [hz]
      rw [hfil] at hnd hbits
      obtain ⟨d2, heq, hbm, hblocks, hbytes, hdin, hnb⟩ := ih ip d hnd hbits
      refine ⟨d2, ?_, ?_, hblocks, hbytes, hdin, hnb⟩
      · unfold exFold
        rw [hstep]
        exact heq
      · intro b
        rw [hfil]
        exact hbm b
    · have hbit : d.bitmap (d.blocks a j) = true := by
        apply hbits
        simp [List.mem_filter, hz]
      have hfil : ((j :: l).map (d.blocks a)).filter (fun x => ¬ x = 0)
          = d.blocks a j :: (l.map (d.blocks a)).filter (fun x => ¬ x = 0) := by
        simp [hz]
      have hstep : truncEntryStep a (ip, d) j = Except.ok (ip,
          { d with bitmap := fun x => if x = d.blocks a j then false
              else d.bitmap x }) := by
        unfold truncEntryStep bfree
        rw [if_neg hz, if_neg (by rw [hbit]; simp)]
      rw [hfil] at hnd hbits
      have hvnotin : ¬ d.blocks a j ∈ (l.map (d.blocks a)).filter (fun x => ¬ x = 0) :=
        (List.nodup_cons.1 hnd).1
      obtain ⟨d2, heq, hbm, hblocks, hbytes, hdin, hnb⟩ :=
        ih ip { d with bitmap := fun x => if x = d.blocks a j then false
            else d.bitmap x }
          (by exact (List.nodup_cons.1 hnd).2)
          (by
            intro b hb
            have hbv : ¬ b = d.blocks a j := by
              intro he
              rw [he] at hb
              exact hvnotin hb
            simp only [if_neg hbv]
            exact hbits b (List.mem_cons_of_mem _ hb))
      refine ⟨d2, ?_, ?_, hblocks, hbytes, hdin, hnb⟩
      · unfold exFold
        rw [hstep]
        exact heq
      · intro b
        rw [hfil]
        by_cases hbl : b ∈ (l.map (d.blocks a)).filter (fun x => ¬ x = 0)
        · rw [hbm b, if_pos hbl, if_pos (List.mem_cons_of_mem _ hbl)]
        · rw [hbm b, if_neg hbl]
          by_cases hbv : b = d.blocks a j
          · rw [if_pos (by rw [hbv]; exact List.mem_cons_self _ _)]
            simp [hbv]
          · rw [if_neg (by
              intro hmem
              rcases List.mem_cons.1 hmem with h1 | h2
              · exact hbv h1
              · exact hbl h2)]
            simp [hbv]

theorem truncDirect_go (l : List Nat) :
    ∀ (ip : BInode) (d : Disk),
    l.Nodup →
    ((l.map ip.addrs).filter (fun x => ¬ x = 0)).Nodup →
    (∀ b ∈ (l.map ip.addrs).filter (fun x => ¬ x = 0), d.bitmap b = true) →
    ∃ ip2 d2, exFold truncDirectStep (ip, d) l = Except.ok (ip2, d2) ∧
      (∀ j, ip2.addrs j = if j ∈ l then 0 else ip.addrs j) ∧
      ip2.inum = ip.inum ∧ ip2.ref = ip.ref ∧ ip2.busy = ip.busy ∧
      ip2.valid = ip.valid ∧ ip2.btype = ip.btype ∧ ip2.nlink = ip.nlink ∧
      ip2.size = ip.size ∧ ip2.indirect2 = ip.indirect2 ∧
      (∀ b, d2.bitmap b =
        if b ∈ (l.map ip.addrs).filter (fun x => ¬ x = 0) then false
        else d.bitmap b) ∧
      d2.blocks = d.blocks ∧ d2.bytes = d.bytes ∧ d2.dinodes = d.dinodes ∧
      d2.nblocks = d.nblocks := by
  induction l with
  | nil =>
    intro ip d _ _ _
    exact ⟨ip, d, rfl, by simp, rfl, rfl, rfl, rfl, rfl, rfl, rfl, rfl,
      by simp, rfl, rfl, rfl, rfl⟩
  | cons i l ih =>
    intro ip d hidx hnd hbits
    have hinotl : ¬ i ∈ l := (List.nodup_cons.1 hidx).1
    by_cases hz : ip.addrs i = 0
    · have hstep : truncDirectStep (ip, d) i = Except.ok (ip, d) := by
        simp [truncDirectStep, hz]
      have hfil : ((i :: l).map ip.addrs).filter (fun x => ¬ x = 0)
          = (l.map ip.addrs).filter (fun x => ¬ x = 0) := by
        simp [hz]
      rw [hfil] at hnd hbits
      obtain ⟨ip2, d2, heq, haddrs, hmeta⟩ :=
        ih ip d (List.nodup_cons.1 hidx).2 hnd hbits
      refine ⟨ip2, d2, ?_, ?_, hmeta.1, hmeta.2.1, hmeta.2.2.1, hmeta.2.2.2.1,
        hmeta.2.2.2.2.1, hmeta.2.2.2.2.2.1, hmeta.2.2.2.2.2.2.1,
        hmeta.2.2.2.2.2.2.2.1, ?_, hmeta.2.2.2.2.2.2.2.2.2.1,
        hmeta.2.2.2.2.2.2.2.2.2.2.1, hmeta.2.2.2.2.2.2.2.2.2.2.2.1,
        hmeta.2.2.2.2.2.2.2.2.2.2.2.2⟩
      · unfold exFold
        rw [hstep]
        exact heq
      · intro j
        rw [haddrs j]
        by_cases hjl : j ∈ l
        · simp [hjl]
        · by_cases hji : j = i
          · simp [hji, hjl, hz]
          · simp [hjl, hji]
      · intro b
        rw [hfil]
        exact hmeta.2.2.2.2.2.2.2.2.1 b
    · have hbit : d.bitmap (ip.addrs i) = true := by
        apply hbits
        simp [List.mem_filter, hz]
      have hfil : ((i :: l).map ip.addrs).filter (fun x => ¬ x = 0)
          = ip.addrs i :: (l.map ip.addrs).filter (fun x => ¬ x = 0) := by
        simp [hz]
      have hstep : truncDirectStep (ip, d) i = Except.ok
          ({ ip with addrs := setAddr ip.addrs i 0 },
           { d with bitmap := fun x => if x = ip.addrs i then false
               else d.bitmap x }) := by
        unfold truncDirectStep bfree
        rw [if_neg hz, if_neg (by rw [hbit]; simp)]
      rw [hfil] at hnd hbits
      have hvnotin : ¬ ip.addrs i ∈ (l.map ip.addrs).filter (fun x => ¬ x = 0) :=
        (List.nodup_cons.1 hnd).1
      have hmapeq : l.map ({ ip with addrs := setAddr ip.addrs i 0 }).addrs
          = l.map ip.addrs := by
        apply List.map_congr_left
        intro j hj
        have : ¬ j = i := fun he => hinotl (he ▸ hj)
        simp [setAddr, this]
      obtain ⟨ip2, d2, heq, haddrs, hmeta⟩ :=
        ih { ip with addrs := setAddr ip.addrs i 0 }
          { d with bitmap := fun x => if x = ip.addrs i then false
              else d.bitmap x }
          (List.nodup_cons.1 hidx).2
          (by rw [hmapeq]; exact (List.nodup_cons.1 hnd).2)
          (by
            rw [hmapeq]
            intro b hb
            have hbv : ¬ b = ip.addrs i := by
              intro he
              rw [he] at hb
              exact hvnotin hb
            simp only [if_neg hbv]
            exact hbits b (List.mem_cons_of_mem _ hb))
      refine ⟨ip2, d2, ?_, ?_, hmeta.1, hmeta.2.1, hmeta.2.2.1, hmeta.2.2.2.1,
        hmeta.2.2.2.2.1, hmeta.2.2.2.2.2.1, hmeta.2.2.2.2.2.2.1,
        hmeta.2.2.2.2.2.2.2.1, ?_, hmeta.2.2.2.2.2.2.2.2.2.1,
        hmeta.2.2.2.2.2.2.2.2.2.2.1, hmeta.2.2.2.2.2.2.2.2.2.2.2.1,
        hmeta.2.2.2.2.2.2.2.2.2.2.2.2⟩
      · unfold exFold
        rw [hstep]
        exact heq
      · intro j
        rw [haddrs j]
        by_cases hjl : j ∈ l
        · simp [hjl]
        · by_cases hji : j = i
          · simp [hji, hjl, setAddr]
          · simp [hjl, hji, setAddr]
      · intro b
        have hbm := hmeta.2.2.2.2.2.2.2.2.1 b
        rw [hmapeq] at hbm
        rw [hbm, hfil]
        by_cases hbl : b ∈ (l.map ip.addrs).filter (fun x => ¬ x = 0)
        · rw [if_pos hbl, if_pos (List.mem_cons_of_mem _ hbl)]
        · rw [if_neg hbl]
          by_cases hbv : b = ip.addrs i
          · rw [if_pos (by rw [hbv]; exact List.mem_cons_self _ _)]
            simp [hbv]
          · rw [if_neg (by
              intro hmem
              rcases List.mem_cons.1 hmem with h1 | h2
              · exact hbv h1
              · exact hbl h2)]
            simp [hbv]

theorem truncDbl_go (i2 : Nat) (l : List Nat) :
    ∀ (ip : BInode) (d : Disk),
    (l.flatMap (fun i => midBlocks d (d.blocks i2 i))).Nodup →
    (∀ b ∈ l.flatMap (fun i => midBlocks d (d.blocks i2 i)), d.bitmap b = true) →
    ∃ d2, exFold (truncDblStep i2) (ip, d) l = Except.ok (ip, d2) ∧
      (∀ b, d2.bitmap b =
        if b ∈ l.flatMap (fun i => midBlocks d (d.blocks i2 i)) then false
        else d.bitmap b) ∧
      d2.blocks = d.blocks ∧ d2.bytes = d.bytes ∧ d2.dinodes = d.dinodes ∧
      d2.nblocks = d.nblocks := by
  induction l with
  | nil =>
    intro ip d _ _
    exact ⟨d, rfl, by simp, rfl, rfl, rfl, rfl⟩
  | cons i l ih =>
    intro ip d hnd hbits
    by_cases hz : d.blocks i2 i = 0
    · have hstep : truncDblStep i2 (ip, d) i = Except.ok (ip, d) := by
        simp [truncDblStep, hz]
      have hfl : (i :: l).flatMap (fun i => midBlocks d (d.blocks i2 i))
          = l.flatMap (fun i => midBlocks d (d.blocks i2 i)) := by
        simp [midBlocks, hz]
      rw [hfl] at hnd hbits
      obtain ⟨d2, heq, hbm, hrest⟩ := ih ip d hnd hbits
      refine ⟨d2, ?_, ?_, hrest⟩
      · unfold exFold
        rw [hstep]
        exact heq
      · intro b
        rw [hfl]
        exact hbm b
    · have hmid : midBlocks d (d.blocks i2 i)
          = ((List.range NINDIRECT).map (d.blocks (d.blocks i2 i))).filter
              (fun x => ¬ x = 0) ++ [d.blocks i2 i] := by
        simp [midBlocks, hz]
      have hfl : (i :: l).flatMap (fun i => midBlocks d (d.blocks i2 i))
          = (((List.range NINDIRECT).map (d.blocks (d.blocks i2 i))).filter
              (fun x => ¬ x = 0) ++ [d.blocks i2 i])
            ++ l.flatMap (fun i => midBlocks d (d.blocks i2 i)) := by
        rw [List.flatMap_cons, hmid]
      rw [hfl] at hnd hbits
      rw [List.nodup_append] at hnd
      obtain ⟨hnd1, hnd2, hdisj⟩ := hnd
      rw [List.nodup_append] at hnd1
      obtain ⟨hndE, -, hdisjE⟩ := hnd1
      have hmidnotE : ¬ d.blocks i2 i ∈
          ((List.range NINDIRECT).map (d.blocks (d.blocks i2 i))).filter
            (fun x => ¬ x = 0) := by
        intro hmem
        exact hdisjE hmem (List.mem_singleton_self _)
      -- inner loop: free the data blocks listed in the mid block
      obtain ⟨d1, heq1, hbm1, hblocks1, hbytes1, hdin1, hnb1⟩ :=
        truncEntries_go (d.blocks i2 i) (List.range NINDIRECT) ip d hndE
          (fun b hb => hbits b (List.mem_append_left _ (List.mem_append_left _ hb)))
      -- then free the mid block itself
      have hbitmid : d1.bitmap (d.blocks i2 i) = true := by
        rw [hbm1, if_neg hmidnotE]
        exact hbits _ (List.mem_append_left _
          (List.mem_append_right _ (List.mem_singleton_self _)))
      have hbfree : bfree d1 (d.blocks i2 i) = Except.ok
          { d1 with bitmap := fun x => if x = d.blocks i2 i then false
              else d1.bitmap x } := by
        unfold bfree
        rw [if_neg (by rw [hbitmid]; simp)]
      have hstep : truncDblStep i2 (ip, d) i = Except.ok (ip,
          { d1 with bitmap := fun x => if x = d.blocks i2 i then false
              else d1.bitmap x }) := by
        unfold truncDblStep
        rw [if_neg hz]
        dsimp only
        rw [heq1]
        dsimp only
        rw [hbfree]
      -- name the state after the mid block is freed
      obtain ⟨dmid, hdm⟩ : ∃ dmid, ({ d1 with bitmap := fun x =>
          if x = (d.blocks i2 i) then false else d1.bitmap x } : Disk) = dmid :=
        ⟨_, rfl⟩
      rw [hdm] at hstep
      have hdmbm : ∀ b, dmid.bitmap b =
          if b = d.blocks i2 i then false else d1.bitmap b := by
        rw [← hdm]
        intro b
        rfl
      have hdmblocks : dmid.blocks = d.blocks := by
        rw [← hdm]
        exact hblocks1
      have hdmbytes : dmid.bytes = d.bytes := by
        rw [← hdm]
        exact hbytes1
      have hdmdin : dmid.dinodes = d.dinodes := by
        rw [← hdm]
        exact hdin1
      have hdmnb : dmid.nblocks = d.nblocks := by
        rw [← hdm]
        exact hnb1
      have htail : (fun i' => midBlocks dmid (dmid.blocks i2 i'))
          = (fun i' => midBlocks d (d.blocks i2 i')) := by
        funext i'
        unfold midBlocks
        rw [hdmblocks]
      have htailfl : List.flatMap l (fun i' => midBlocks dmid (dmid.blocks i2 i'))
          = List.flatMap l (fun i' => midBlocks d (d.blocks i2 i')) :=
        congrArg _ htail
      obtain ⟨d2, heq2, hbm2, hblocks3, hbytes3, hdin3, hnb3⟩ :=
        ih ip dmid
          (by rw [htailfl]; exact hnd2)
          (by
            rw [htailfl]
            intro b hb
            have hbnothead : ¬ b ∈ ((List.range NINDIRECT).map
                (d.blocks (d.blocks i2 i))).filter (fun x => ¬ x = 0)
                ++ [d.blocks i2 i] := fun hmem => hdisj hmem hb
            have hbne : ¬ b = d.blocks i2 i := by
              intro he
              exact hbnothead (he ▸ List.mem_append_right _
                (List.mem_singleton_self _))
            have hbnotE : ¬ b ∈ ((List.range NINDIRECT).map
                (d.blocks (d.blocks i2 i))).filter (fun x => ¬ x = 0) :=
              fun hmem => hbnothead (List.mem_append_left _ hmem)
            rw [hdmbm, if_neg hbne, hbm1, if_neg hbnotE]
            exact hbits b (List.mem_append_right _ hb))
      refine ⟨d2, ?_, ?_, by rw [hblocks3]; exact hdmblocks,
        by rw [hbytes3]; exact hdmbytes, by rw [hdin3]; exact hdmdin,
        by rw [hnb3]; exact hdmnb⟩
      · unfold exFold
        rw [hstep]
        exact heq2
      · intro b
        have hb2 := hbm2 b
        rw [htailfl] at hb2
        rw [hb2, hfl]
        by_cases hbl : b ∈ l.flatMap (fun i => midBlocks d (d.blocks i2 i))
        · rw [if_pos hbl, if_pos (List.mem_append_right _ hbl)]
        · rw [if_neg hbl, hdmbm]
          by_cases hbv : b = d.blocks i2 i
          · rw [if_pos hbv, if_pos (List.mem_append_left _
              (List.mem_append_right _ (by simp [hbv])))]
          · rw [if_neg hbv, hbm1]
            by_cases hbE : b ∈ ((List.range NINDIRECT).map
                (d.blocks (d.blocks i2 i))).filter (fun x => ¬ x = 0)
            · rw [if_pos hbE, if_pos (List.mem_append_left _
                (List.mem_append_left _ hbE))]
            · rw [if_neg hbE, if_neg (by
                intro hmem
                rcases List.mem_append.1 hmem with h1 | h2
                · rcases List.mem_append.1 h1 with h3 | h4
                  · exact hbE h3
                  · exact hbv (List.mem_singleton.1 h4)
                · exact hbl h2)]

theorem bfree_of_set {dx : Disk} {b : Nat} (hb : dx.bitmap b = true) :
    bfree dx b = Except.ok
      { dx with bitmap := fun x => if x = b then false else dx.bitmap x } := by
  unfold bfree
  rw [if_neg (by rw [hb]; simp)]

/-- Post-condition of `itrunc`: index map zeroed, size zero, cache
bookkeeping untouched, every previously mapped block freed in the bitmap,
block contents untouched, other dinode slots untouched. -/
def ItruncPost (ip : BInode) (d : Disk) (ipT : BInode) (dT : Disk) : Prop :=
  (∀ j, j < NDIRECT + 1 → ipT.addrs j = 0) ∧
  ipT.indirect2 = 0 ∧ ipT.size = 0 ∧
  ipT.inum = ip.inum ∧ ipT.ref = ip.ref ∧ ipT.busy = ip.busy ∧
  ipT.valid = ip.valid ∧ ipT.btype = ip.btype ∧ ipT.nlink = ip.nlink ∧
  (∀ b ∈ mappedBlocks ip d, dT.bitmap b = false) ∧
  dT.blocks = d.blocks ∧
  (∀ j, ¬ j = ip.inum → dT.dinodes j = d.dinodes j)

theorem itrunc_spec_zz (ip : BInode) (d : Disk)
    (hnd : (mappedBlocks ip d).Nodup)
    (hset : ∀ b ∈ mappedBlocks ip d, d.bitmap b = true)
    (hz2 : ip.addrs NDIRECT = 0) (hz3 : ip.indirect2 = 0) :
    ∃ ipT dT, itrunc ip d = Except.ok (ipT, dT) ∧ ItruncPost ip d ipT dT := by
  have hndD : (directBlocks ip).Nodup := by
    have := hnd
    unfold mappedBlocks at this
    rw [List.nodup_append] at this
    rw [List.nodup_append] at this
    exact this.1.1
  have hsetD : ∀ b ∈ directBlocks ip, d.bitmap b = true := by
    intro b hb
    apply hset
    unfold mappedBlocks
    exact List.mem_append_left _ (List.mem_append_left _ hb)
  obtain ⟨ip1, d1, heq1, haddr1, hinum1, href1, hbusy1, hvalid1, hbtype1,
    hnlink1, hsize1, hind1, hbm1, hblocks1, hbytes1, hdin1, hnb1⟩ :=
    truncDirect_go (List.range NDIRECT) ip d (List.nodup_range NDIRECT) hndD hsetD
  have hA : ip1.addrs NDIRECT = 0 := by
    rw [haddr1]
    simp [hz2]
  have hI : ip1.indirect2 = 0 := by
    rw [hind1]
    exact hz3
  refine ⟨{ ip1 with size := 0 }, iupdate { ip1 with size := 0 } d1, ?_, ?_,
    ?_, rfl, hinum1, href1, hbusy1, hvalid1, hbtype1, hnlink1, ?_, ?_, ?_⟩
  · unfold itrunc
    rw [heq1]
    dsimp only
    rw [if_pos hA]
    dsimp only
    rw [if_pos hI]
  · intro j hj
    show ip1.addrs j = 0
    rw [haddr1]
    rcases Nat.lt_or_ge j NDIRECT with h | h
    · simp [List.mem_range, h]
    · have : j = NDIRECT := by omega
      simp [this, List.mem_range, hz2]
  · exact hI
  · intro b hb
    show d1.bitmap b = false
    unfold mappedBlocks at hb
    have hbD : b ∈ directBlocks ip := by
      rcases List.mem_append.1 hb with h1 | h2
      · rcases List.mem_append.1 h1 with h3 | h4
        · exact h3
        · unfold indBlocks at h4
          rw [if_pos hz2] at h4
          cases h4
      · unfold dblBlocks at h2
        rw [if_pos hz3] at h2
        cases h2
    have hbD2 : b ∈ (List.map ip.addrs (List.range NDIRECT)).filter
        (fun x => ¬ x = 0) := hbD
    rw [hbm1, if_pos hbD2]
  · exact hblocks1
  · intro j hj
    show (if j = ip1.inum then _ else d1.dinodes j) = d.dinodes j
    rw [hinum1, if_neg hj, hdin1]

theorem itrunc_spec_nz (ip : BInode) (d : Disk)
    (hnd : (mappedBlocks ip d).Nodup)
    (hset : ∀ b ∈ mappedBlocks ip d, d.bitmap b = true)
    (hz2 : ¬ ip.addrs NDIRECT = 0) (hz3 : ip.indirect2 = 0) :
    ∃ ipT dT, itrunc ip d = Except.ok (ipT, dT) ∧ ItruncPost ip d ipT dT := by
  have h0 := hnd
  unfold mappedBlocks at h0
  rw [List.nodup_append] at h0
  obtain ⟨hDI, hndDbl, hdisjDbl⟩ := h0
  rw [List.nodup_append] at hDI
  obtain ⟨hndD, hndI, hdisjDI⟩ := hDI
  have hsetD : ∀ b ∈ directBlocks ip, d.bitmap b = true := by
    intro b hb
    apply hset
    unfold mappedBlocks
    exact List.mem_append_left _ (List.mem_append_left _ hb)
  have hsetI : ∀ b ∈ indBlocks ip d, d.bitmap b = true := by
    intro b hb
    apply hset
    unfold mappedBlocks
    exact List.mem_append_left _ (List.mem_append_right _ hb)
  obtain ⟨ip1, d1, heq1, haddr1, hinum1, href1, hbusy1, hvalid1, hbtype1,
    hnlink1, hsize1, hind1, hbm1, hblocks1, hbytes1, hdin1, hnb1⟩ :=
    truncDirect_go (List.range NDIRECT) ip d (List.nodup_range NDIRECT) hndD hsetD
  have hA : ip1.addrs NDIRECT = ip.addrs NDIRECT := by
    rw [haddr1]
    simp
  have hIeq : indBlocks ip d =
      ((List.range NINDIRECT).map (d.blocks (ip.addrs NDIRECT))).filter
        (fun x => ¬ x = 0) ++ [ip.addrs NDIRECT] := by
    unfold indBlocks
    rw [if_neg hz2]
  rw [hIeq] at hndI hsetI hdisjDI
  rw [List.nodup_append] at hndI
  obtain ⟨hndE, -, hdisjEA⟩ := hndI
  have hAnotE : ¬ ip.addrs NDIRECT ∈
      ((List.range NINDIRECT).map (d.blocks (ip.addrs NDIRECT))).filter
        (fun x => ¬ x = 0) :=
    fun hm => hdisjEA hm (List.mem_singleton_self _)
  have hEd1 : ((List.range NINDIRECT).map (d1.blocks (ip.addrs NDIRECT))).filter
      (fun x => ¬ x = 0)
      = ((List.range NINDIRECT).map (d.blocks (ip.addrs NDIRECT))).filter
        (fun x => ¬ x = 0) := by
    rw [hblocks1]
  obtain ⟨d2, heqB, hbmB, hblocksB, hbytesB, hdinB, hnbB⟩ :=
    truncEntries_go (ip.addrs NDIRECT) (List.range NINDIRECT) ip1 d1
      (by rw [hEd1]; exact hndE)
      (by
        rw [hEd1]
        intro b hb
        rw [hbm1, if_neg (show ¬ b ∈ (List.map ip.addrs
            (List.range NDIRECT)).filter (fun x => ¬ x = 0) from
          fun hmem => hdisjDI hmem (List.mem_append_left _ hb))]
        exact hsetI b (List.mem_append_left _ hb))
  have hbitA : d2.bitmap (ip.addrs NDIRECT) = true := by
    rw [hbmB, hEd1, if_neg hAnotE, hbm1,
      if_neg (show ¬ ip.addrs NDIRECT ∈ (List.map ip.addrs
          (List.range NDIRECT)).filter (fun x => ¬ x = 0) from
        fun hmem => hdisjDI hmem
          (List.mem_append_right _ (List.mem_singleton_self _)))]
    exact hsetI _ (List.mem_append_right _ (List.mem_singleton_self _))
  obtain ⟨ip3, hip3⟩ : ∃ x, ({ ip1 with addrs := setAddr ip1.addrs NDIRECT 0 }
      : BInode) = x := ⟨_, rfl⟩
  obtain ⟨d3, hd3⟩ : ∃ x, ({ d2 with bitmap := fun y =>
      if y = (ip.addrs NDIRECT) then false else d2.bitmap y } : Disk) = x :=
    ⟨_, rfl⟩
  have hip3a : ∀ j, ip3.addrs j = setAddr ip1.addrs NDIRECT 0 j := by
    rw [← hip3]
    intro j
    rfl
  have hip3i : ip3.indirect2 = 0 := by
    rw [← hip3]
    show ip1.indirect2 = 0
    rw [hind1]
    exact hz3
  have hd3bm : ∀ b, d3.bitmap b =
      if b = ip.addrs NDIRECT then false else d2.bitmap b := by
    rw [← hd3]
    intro b
    rfl
  have hd3blocks : d3.blocks = d.blocks := by
    rw [← hd3]
    show d2.blocks = d.blocks
    rw [hblocksB, hblocks1]
  have hd3din : d3.dinodes = d.dinodes := by
    rw [← hd3]
    show d2.dinodes = d.dinodes
    rw [hdinB, hdin1]
  have hip3meta : ip3.inum = ip.inum ∧ ip3.ref = ip.ref ∧ ip3.busy = ip.busy ∧
      ip3.valid = ip.valid ∧ ip3.btype = ip.btype ∧ ip3.nlink = ip.nlink := by
    rw [← hip3]
    exact ⟨hinum1, href1, hbusy1, hvalid1, hbtype1, hnlink1⟩
  have hrun : itrunc ip d = Except.ok ({ ip3 with size := 0 },
      iupdate { ip3 with size := 0 } d3) := by
    unfold itrunc
    rw [heq1]
    dsimp only
    rw [hA, if_neg hz2, heqB]
    dsimp only
    rw [hA, bfree_of_set hbitA]
    dsimp only
    rw [hip3, hd3]
    rw [if_pos (show _ from by first | exact hip3i | (rw [hind1]; exact hz3))]
  refine ⟨{ ip3 with size := 0 }, iupdate { ip3 with size := 0 } d3, hrun,
    ?_, ?_, rfl, hip3meta.1, hip3meta.2.1, hip3meta.2.2.1, hip3meta.2.2.2.1,
    hip3meta.2.2.2.2.1, hip3meta.2.2.2.2.2, ?_, ?_, ?_⟩
  · intro j hj
    show ip3.addrs j = 0
    rw [hip3a]
    by_cases hjN : j = NDIRECT
    · simp [setAddr, hjN]
    · have hjlt : j < NDIRECT := by omega
      simp [setAddr, hjN, haddr1, List.mem_range, hjlt]
  · exact hip3i
  · intro b hb
    show d3.bitmap b = false
    rw [hd3bm]
    by_cases hbA : b = ip.addrs NDIRECT
    · rw [if_pos hbA]
    · rw [if_neg hbA]
      unfold mappedBlocks at hb
      rcases List.mem_append.1 hb with h1 | h2
      · rcases List.mem_append.1 h1 with h3 | h4
        · -- direct block
          rw [hbmB]
          by_cases hbE : b ∈ ((List.range NINDIRECT).map
              (d1.blocks (ip.addrs NDIRECT))).filter (fun x => ¬ x = 0)
          · rw [if_pos hbE]
          · rw [if_neg hbE, hbm1]
            rw [if_pos (show b ∈ (List.map ip.addrs
              (List.range NDIRECT)).filter (fun x => ¬ x = 0) from h3)]
        · -- single-indirect block
          rw [hIeq] at h4
          rcases List.mem_append.1 h4 with h5 | h6
          · rw [hbmB]
            rw [if_pos (show b ∈ (List.map (d1.blocks (ip.addrs NDIRECT))
              (List.range NINDIRECT)).filter (fun x => ¬ x = 0) from by
                rw [hEd1]; exact h5)]
          · exact absurd (List.mem_singleton.1 h6) hbA
      · unfold dblBlocks at h2
        rw [if_pos hz3] at h2
        cases h2
  · show d3.blocks = d.blocks
    exact hd3blocks
  · intro j hj
    show (if j = ({ ip3 with size := 0 } : BInode).inum then _
      else d3.dinodes j) = d.dinodes j
    rw [show ({ ip3 with size := 0 } : BInode).inum = ip.inum from hip3meta.1,
      if_neg hj, hd3din]

theorem phase3_run (ip : BInode) (d : Disk) (ipa : BInode) (da : Disk)
    (hz3 : ¬ ip.indirect2 = 0) (hdab : da.blocks = d.blocks)
    (hndDbl : (dblBlocks ip d).Nodup)
    (hbitsDbl : ∀ b ∈ dblBlocks ip d, da.bitmap b = true) :
    ∃ d4, exFold (truncDblStep ip.indirect2) (ipa, da) (List.range NINDIRECT)
        = Except.ok (ipa, d4) ∧
      (∀ b, d4.bitmap b = if b ∈ (List.range NINDIRECT).flatMap
          (fun i => midBlocks d (d.blocks ip.indirect2 i)) then false
        else da.bitmap b) ∧
      d4.blocks = da.blocks ∧ d4.bytes = da.bytes ∧ d4.dinodes = da.dinodes := by
  have hDeq : dblBlocks ip d = (List.range NINDIRECT).flatMap
      (fun i => midBlocks d (d.blocks ip.indirect2 i)) ++ [ip.indirect2] := by
    unfold dblBlocks
    rw [if_neg hz3]
  rw [hDeq] at hndDbl hbitsDbl
  rw [List.nodup_append] at hndDbl
  obtain ⟨hndM, -, -⟩ := hndDbl
  have hmb : (fun i => midBlocks da (da.blocks ip.indirect2 i))
      = (fun i => midBlocks d (d.blocks ip.indirect2 i)) := by
    funext i
    unfold midBlocks
    rw [hdab]
  have hfl : List.flatMap (List.range NINDIRECT)
      (fun i => midBlocks da (da.blocks ip.indirect2 i))
      = List.flatMap (List.range NINDIRECT)
      (fun i => midBlocks d (d.blocks ip.indirect2 i)) :=
    congrArg (List.flatMap (List.range NINDIRECT)) hmb
  obtain ⟨d4, heqC, hbmC, hblC, hbyC, hdnC, hnbC⟩ :=
    truncDbl_go ip.indirect2 (List.range NINDIRECT) ipa da
      (by rw [hfl]; exact hndM)
      (by
        rw [hfl]
        intro b hb
        exact hbitsDbl b (List.mem_append_left _ hb))
  refine ⟨d4, heqC, ?_, hblC, hbyC, hdnC⟩
  intro b
  rw [hbmC b, hfl]

theorem itrunc_spec_zn (ip : BInode) (d : Disk)
    (hnd : (mappedBlocks ip d).Nodup)
    (hset : ∀ b ∈ mappedBlocks ip d, d.bitmap b = true)
    (hz2 : ip.addrs NDIRECT = 0) (hz3 : ¬ ip.indirect2 = 0) :
    ∃ ipT dT, itrunc ip d = Except.ok (ipT, dT) ∧ ItruncPost ip d ipT dT := by
  have h0 := hnd
  unfold mappedBlocks at h0
  rw [List.nodup_append] at h0
  obtain ⟨hDI, hndDbl, hdisjDbl⟩ := h0
  rw [List.nodup_append] at hDI
  obtain ⟨hndD, hndI, hdisjDI⟩ := hDI
  have hsetD : ∀ b ∈ directBlocks ip, d.bitmap b = true := by
    intro b hb
    apply hset
    unfold mappedBlocks
    exact List.mem_append_left _ (List.mem_append_left _ hb)
  have hsetDbl : ∀ b ∈ dblBlocks ip d, d.bitmap b = true := by
    intro b hb
    apply hset
    unfold mappedBlocks
    exact List.mem_append_right _ hb
  obtain ⟨ip1, d1, heq1, haddr1, hinum1, href1, hbusy1, hvalid1, hbtype1,
    hnlink1, hsize1, hind1, hbm1, hblocks1, hbytes1, hdin1, hnb1⟩ :=
    truncDirect_go (List.range NDIRECT) ip d (List.nodup_range NDIRECT) hndD hsetD
  have hA : ip1.addrs NDIRECT = 0 := by
    rw [haddr1]
    simp [hz2]
  obtain ⟨d4, heqC, hbmC, hblC, hbyC, hdnC⟩ :=
    phase3_run ip d ip1 d1 hz3 hblocks1 hndDbl
      (by
        intro b hb
        rw [hbm1, if_neg (show ¬ b ∈ (List.map ip.addrs
            (List.range NDIRECT)).filter (fun x => ¬ x = 0) from
          fun hmem => hdisjDbl (List.mem_append_left _ hmem) hb)]
        exact hsetDbl b hb)
  have hDeq : dblBlocks ip d = (List.range NINDIRECT).flatMap
      (fun i => midBlocks d (d.blocks ip.indirect2 i)) ++ [ip.indirect2] := by
    unfold dblBlocks
    rw [if_neg hz3]
  have hI2notM : ¬ ip.indirect2 ∈ (List.range NINDIRECT).flatMap
      (fun i => midBlocks d (d.blocks ip.indirect2 i)) := by
    have := hndDbl
    rw [hDeq, List.nodup_append] at this
    exact fun hm => this.2.2 hm (List.mem_singleton_self _)
  have hI2dbl : ip.indirect2 ∈ dblBlocks ip d := by
    rw [hDeq]
    exact List.mem_append_right _ (List.mem_singleton_self _)
  have hbitI2 : d4.bitmap ip.indirect2 = true := by
    rw [hbmC, if_neg hI2notM, hbm1,
      if_neg (show ¬ ip.indirect2 ∈ (List.map ip.addrs
          (List.range NDIRECT)).filter (fun x => ¬ x = 0) from
        fun hmem => hdisjDbl (List.mem_append_left _ hmem) hI2dbl)]
    exact hsetDbl _ hI2dbl
  obtain ⟨ip5, hip5⟩ : ∃ x, ({ ip1 with indirect2 := 0 } : BInode) = x := ⟨_, rfl⟩
  obtain ⟨d5, hd5⟩ : ∃ x, ({ d4 with bitmap := fun y =>
      if y = ip.indirect2 then false else d4.bitmap y } : Disk) = x := ⟨_, rfl⟩
  have hip5a : ∀ j, ip5.addrs j = ip1.addrs j := by
    rw [← hip5]
    intro j
    rfl
  have hip5i : ip5.indirect2 = 0 := by
    rw [← hip5]
  have hip5meta : ip5.inum = ip.inum ∧ ip5.ref = ip.ref ∧ ip5.busy = ip.busy ∧
      ip5.valid = ip.valid ∧ ip5.btype = ip.btype ∧ ip5.nlink = ip.nlink := by
    rw [← hip5]
    exact ⟨hinum1, href1, hbusy1, hvalid1, hbtype1, hnlink1⟩
  have hd5bm : ∀ b, d5.bitmap b =
      if b = ip.indirect2 then false else d4.bitmap b := by
    rw [← hd5]
    intro b
    rfl
  have hd5blocks : d5.blocks = d.blocks := by
    rw [← hd5]
    show d4.blocks = d.blocks
    rw [hblC, hblocks1]
  have hd5din : d5.dinodes = d.dinodes := by
    rw [← hd5]
    show d4.dinodes = d.dinodes
    rw [hdnC, hdin1]
  have hrun : itrunc ip d = Except.ok ({ ip5 with size := 0 },
      iupdate { ip5 with size := 0 } d5) := by
    unfold itrunc
    rw [heq1]
    dsimp only
    rw [if_pos hA]
    dsimp only
    rw [hind1, if_neg hz3, heqC]
    dsimp only
    rw [hind1, bfree_of_set hbitI2]
    dsimp only
    rw [← hip5, ← hd5]
  refine ⟨{ ip5 with size := 0 }, iupdate { ip5 with size := 0 } d5, hrun,
    ?_, hip5i, rfl, hip5meta.1, hip5meta.2.1, hip5meta.2.2.1, hip5meta.2.2.2.1,
    hip5meta.2.2.2.2.1, hip5meta.2.2.2.2.2, ?_, ?_, ?_⟩
  · intro j hj
    show ip5.addrs j = 0
    rw [hip5a, haddr1]
    rcases Nat.lt_or_ge j NDIRECT with h | h
    · simp [List.mem_range, h]
    · have : j = NDIRECT := by omega
      simp [this, List.mem_range, hz2]
  · intro b hb
    show d5.bitmap b = false
    rw [hd5bm]
    by_cases hbI : b = ip.indirect2
    · rw [if_pos hbI]
    · rw [if_neg hbI]
      unfold mappedBlocks at hb
      rcases List.mem_append.1 hb with h1 | h2
      · rcases List.mem_append.1 h1 with h3 | h4
        · rw [hbmC]
          by_cases hbM : b ∈ (List.range NINDIRECT).flatMap
              (fun i => midBlocks d (d.blocks ip.indirect2 i))
          · rw [if_pos hbM]
          · rw [if_neg hbM, hbm1]
            rw [if_pos (show b ∈ (List.map ip.addrs
              (List.range NDIRECT)).filter (fun x => ¬ x = 0) from h3)]
        · unfold indBlocks at h4
          rw [if_pos hz2] at h4
          cases h4
      · rw [hDeq] at h2
        rcases List.mem_append.1 h2 with h5 | h6
        · rw [hbmC, if_pos h5]
        · exact absurd (List.mem_singleton.1 h6) hbI
  · show d5.blocks = d.blocks
    exact hd5blocks
  · intro j hj
    show (if j = ({ ip5 with size := 0 } : BInode).inum then _
      else d5.dinodes j) = d.dinodes j
    rw [show ({ ip5 with size := 0 } : BInode).inum = ip.inum from hip5meta.1,
      if_neg hj, hd5din]

theorem itrunc_spec_nn (ip : BInode) (d : Disk)
    (hnd : (mappedBlocks ip d).Nodup)
    (hset : ∀ b ∈ mappedBlocks ip d, d.bitmap b = true)
    (hz2 : ¬ ip.addrs NDIRECT = 0) (hz3 : ¬ ip.indirect2 = 0) :
    ∃ ipT dT, itrunc ip d = Except.ok (ipT, dT) ∧ ItruncPost ip d ipT dT := by
  have h0 := hnd
  unfold mappedBlocks at h0
  rw [List.nodup_append] at h0
  obtain ⟨hDI, hndDbl, hdisjDbl⟩ := h0
  rw [List.nodup_append] at hDI
  obtain ⟨hndD, hndI, hdisjDI⟩ := hDI
  have hsetD : ∀ b ∈ directBlocks ip, d.bitmap b = true := by
    intro b hb
    apply hset
    unfold mappedBlocks
    exact List.mem_append_left _ (List.mem_append_left _ hb)
  have hsetI : ∀ b ∈ indBlocks ip d, d.bitmap b = true := by
    intro b hb
    apply hset
    unfold mappedBlocks
    exact List.mem_append_left _ (List.mem_append_right _ hb)
  have hsetDbl : ∀ b ∈ dblBlocks ip d, d.bitmap b = true := by
    intro b hb
    apply hset
    unfold mappedBlocks
    exact List.mem_append_right _ hb
  obtain ⟨ip1, d1, heq1, haddr1, hinum1, href1, hbusy1, hvalid1, hbtype1,
    hnlink1, hsize1, hind1, hbm1, hblocks1, hbytes1, hdin1, hnb1⟩ :=
    truncDirect_go (List.range NDIRECT) ip d (List.nodup_range NDIRECT) hndD hsetD
  have hA : ip1.addrs NDIRECT = ip.addrs NDIRECT := by
    rw [haddr1]
    simp
  have hIeq : indBlocks ip d =
      ((List.range NINDIRECT).map (d.blocks (ip.addrs NDIRECT))).filter
        (fun x => ¬ x = 0) ++ [ip.addrs NDIRECT] := by
    unfold indBlocks
    rw [if_neg hz2]
  have hndI2 := hndI
  rw [hIeq, List.nodup_append] at hndI2
  obtain ⟨hndE, -, hdisjEA⟩ := hndI2
  have hAnotE : ¬ ip.addrs NDIRECT ∈
      ((List.range NINDIRECT).map (d.blocks (ip.addrs NDIRECT))).filter
        (fun x => ¬ x = 0) :=
    fun hm => hdisjEA hm (List.mem_singleton_self _)
  have hAind : ip.addrs NDIRECT ∈ indBlocks ip d := by
    rw [hIeq]
    exact List.mem_append_right _ (List.mem_singleton_self _)
  have hEd1 : ((List.range NINDIRECT).map (d1.blocks (ip.addrs NDIRECT))).filter
      (fun x => ¬ x = 0)
      = ((List.range NINDIRECT).map (d.blocks (ip.addrs NDIRECT))).filter
        (fun x => ¬ x = 0) := by
    rw [hblocks1]
  obtain ⟨d2, heqB, hbmB, hblocksB, hbytesB, hdinB, hnbB⟩ :=
    truncEntries_go (ip.addrs NDIRECT) (List.range NINDIRECT) ip1 d1
      (by rw [hEd1]; exact hndE)
      (by
        rw [hEd1]
        intro b hb
        rw [hbm1, if_neg (show ¬ b ∈ (List.map ip.addrs
            (List.range NDIRECT)).filter (fun x => ¬ x = 0) from
          fun hmem => hdisjDI hmem (hIeq ▸ List.mem_append_left _ hb))]
        exact hsetI b (hIeq ▸ List.mem_append_left _ hb))
  have hbitA : d2.bitmap (ip.addrs NDIRECT) = true := by
    rw [hbmB, hEd1, if_neg hAnotE, hbm1,
      if_neg (show ¬ ip.addrs NDIRECT ∈ (List.map ip.addrs
          (List.range NDIRECT)).filter (fun x => ¬ x = 0) from
        fun hmem => hdisjDI hmem hAind)]
    exact hsetI _ hAind
  obtain ⟨ip3, hip3⟩ : ∃ x, ({ ip1 with addrs := setAddr ip1.addrs NDIRECT 0 }
      : BInode) = x := ⟨_, rfl⟩
  obtain ⟨d3, hd3⟩ : ∃ x, ({ d2 with bitmap := fun y =>
      if y = (ip.addrs NDIRECT) then false else d2.bitmap y } : Disk) = x :=
    ⟨_, rfl⟩
  have hip3a : ∀ j, ip3.addrs j = setAddr ip1.addrs NDIRECT 0 j := by
    rw [← hip3]
    intro j
    rfl
  have hip3i2 : ip3.indirect2 = ip.indirect2 := by
    rw [← hip3]
    show ip1.indirect2 = ip.indirect2
    exact hind1
  have hip3meta : ip3.inum = ip.inum ∧ ip3.ref = ip.ref ∧ ip3.busy = ip.busy ∧
      ip3.valid = ip.valid ∧ ip3.btype = ip.btype ∧ ip3.nlink = ip.nlink := by
    rw [← hip3]
    exact ⟨hinum1, href1, hbusy1, hvalid1, hbtype1, hnlink1⟩
  have hd3bm : ∀ b, d3.bitmap b =
      if b = ip.addrs NDIRECT then false else d2.bitmap b := by
    rw [← hd3]
    intro b
    rfl
  have hd3blocks : d3.blocks = d.blocks := by
    rw [← hd3]
    show d2.blocks = d.blocks
    rw [hblocksB, hblocks1]
  have hd3din : d3.dinodes = d.dinodes := by
    rw [← hd3]
    show d2.dinodes = d.dinodes
    rw [hdinB, hdin1]
  -- wellformedness facts for the double-indirect phase in state d3
  have hd3dbl : ∀ b ∈ dblBlocks ip d, d3.bitmap b = true := by
    intro b hb
    have hbA : ¬ b = ip.addrs NDIRECT :=
      fun he => hdisjDbl (List.mem_append_right _ (he ▸ hAind)) hb
    have hbE : ¬ b ∈ ((List.range NINDIRECT).map
        (d1.blocks (ip.addrs NDIRECT))).filter (fun x => ¬ x = 0) := by
      rw [hEd1]
      intro hm
      exact hdisjDbl (List.mem_append_right _
        (hIeq ▸ List.mem_append_left _ hm)) hb
    have hbD : ¬ b ∈ (List.map ip.addrs (List.range NDIRECT)).filter
        (fun x => ¬ x = 0) :=
      fun hm => hdisjDbl (List.mem_append_left _ hm) hb
    rw [hd3bm, if_neg hbA, hbmB, if_neg hbE, hbm1, if_neg hbD]
    exact hsetDbl b hb
  obtain ⟨d4, heqC, hbmC, hblC, hbyC, hdnC⟩ :=
    phase3_run ip d ip3 d3 hz3 hd3blocks hndDbl hd3dbl
  have hDeq : dblBlocks ip d = (List.range NINDIRECT).flatMap
      (fun i => midBlocks d (d.blocks ip.indirect2 i)) ++ [ip.indirect2] := by
    unfold dblBlocks
    rw [if_neg hz3]
  have hI2notM : ¬ ip.indirect2 ∈ (List.range NINDIRECT).flatMap
      (fun i => midBlocks d (d.blocks ip.indirect2 i)) := by
    have := hndDbl
    rw [hDeq, List.nodup_append] at this
    exact fun hm => this.2.2 hm (List.mem_singleton_self _)
  have hI2dbl : ip.indirect2 ∈ dblBlocks ip d := by
    rw [hDeq]
    exact List.mem_append_right _ (List.mem_singleton_self _)
  have hbitI2 : d4.bitmap ip.indirect2 = true := by
    rw [hbmC, if_neg hI2notM]
    exact hd3dbl _ hI2dbl
  obtain ⟨ip5, hip5⟩ : ∃ x, ({ ip3 with indirect2 := 0 } : BInode) = x := ⟨_, rfl⟩
  obtain ⟨d5, hd5⟩ : ∃ x, ({ d4 with bitmap := fun y =>
      if y = ip.indirect2 then false else d4.bitmap y } : Disk) = x := ⟨_, rfl⟩
  have hip5a : ∀ j, ip5.addrs j = ip3.addrs j := by
    rw [← hip5]
    intro j
    rfl
  have hip5i : ip5.indirect2 = 0 := by
    rw [← hip5]
  have hip5meta : ip5.inum = ip.inum ∧ ip5.ref = ip.ref ∧ ip5.busy = ip.busy ∧
      ip5.valid = ip.valid ∧ ip5.btype = ip.btype ∧ ip5.nlink = ip.nlink := by
    rw [← hip5]
    exact hip3meta
  have hd5bm : ∀ b, d5.bitmap b =
      if b = ip.indirect2 then false else d4.bitmap b := by
    rw [← hd5]
    intro b
    rfl
  have hd5blocks : d5.blocks = d.blocks := by
    rw [← hd5]
    show d4.blocks = d.blocks
    rw [hblC, hd3blocks]
  have hd5din : d5.dinodes = d.dinodes := by
    rw [← hd5]
    show d4.dinodes = d.dinodes
    rw [hdnC, hd3din]
  have hrun : itrunc ip d = Except.ok ({ ip5 with size := 0 },
      iupdate { ip5 with size := 0 } d5) := by
    unfold itrunc
    rw [heq1]
    dsimp only
    rw [hA, if_neg hz2, heqB]
    dsimp only
    rw [hA, bfree_of_set hbitA]
    dsimp only
    rw [hip3, hd3]
    rw [hind1, if_neg hz3]
    rw [heqC]
    dsimp only
    rw [hip3i2, bfree_of_set hbitI2]
    dsimp only
    rw [← hip5, ← hd5]
  refine ⟨{ ip5 with size := 0 }, iupdate { ip5 with size := 0 } d5, hrun,
    ?_, hip5i, rfl, hip5meta.1, hip5meta.2.1, hip5meta.2.2.1, hip5meta.2.2.2.1,
    hip5meta.2.2.2.2.1, hip5meta.2.2.2.2.2, ?_, ?_, ?_⟩
  · intro j hj
    show ip5.addrs j = 0
    rw [hip5a, hip3a]
    by_cases hjN : j = NDIRECT
    · simp [setAddr, hjN]
    · have hjlt : j < NDIRECT := by omega
      simp [setAddr, hjN, haddr1, List.mem_range, hjlt]
  · intro b hb
    show d5.bitmap b = false
    rw [hd5bm]
    by_cases hbI : b = ip.indirect2
    · rw [if_pos hbI]
    · rw [if_neg hbI, hbmC]
      by_cases hbM : b ∈ (List.range NINDIRECT).flatMap
          (fun i => midBlocks d (d.blocks ip.indirect2 i))
      · rw [if_pos hbM]
      · rw [if_neg hbM, hd3bm]
        by_cases hbA : b = ip.addrs NDIRECT
        · rw [if_pos hbA]
        · rw [if_neg hbA, hbmB]
          by_cases hbE : b ∈ ((List.range NINDIRECT).map
              (d1.blocks (ip.addrs NDIRECT))).filter (fun x => ¬ x = 0)
          · rw [if_pos hbE]
          · rw [if_neg hbE]
            unfold mappedBlocks at hb
            rcases List.mem_append.1 hb with h1 | h2
            · rcases List.mem_append.1 h1 with h3 | h4
              · rw [hbm1]
                rw [if_pos (show b ∈ (List.map ip.addrs
                  (List.range NDIRECT)).filter (fun x => ¬ x = 0) from h3)]
              · rw [hIeq] at h4
                rcases List.mem_append.1 h4 with h5 | h6
                · exact absurd (hEd1.symm ▸ h5) hbE
                · exact absurd (List.mem_singleton.1 h6) hbA
            · rw [hDeq] at h2
              rcases List.mem_append.1 h2 with h5 | h6
              · exact absurd h5 hbM
              · exact absurd (List.mem_singleton.1 h6) hbI
  · show d5.blocks = d.blocks
    exact hd5blocks
  · intro j hj
    show (if j = ({ ip5 with size := 0 } : BInode).inum then _
      else d5.dinodes j) = d.dinodes j
    rw [show ({ ip5 with size := 0 } : BInode).inum = ip.inum from hip5meta.1,
      if_neg hj, hd5din]

theorem itrunc_spec (ip : BInode) (d : Disk)
    (hnd : (mappedBlocks ip d).Nodup)
    (hset : ∀ b ∈ mappedBlocks ip d, d.bitmap b = true) :
    ∃ ipT dT, itrunc ip d = Except.ok (ipT, dT) ∧ ItruncPost ip d ipT dT := by
  by_cases hz2 : ip.addrs NDIRECT = 0 <;> by_cases hz3 : ip.indirect2 = 0
  · exact itrunc_spec_zz ip d hnd hset hz2 hz3
  · exact itrunc_spec_zn ip d hnd hset hz2 hz3
  · exact itrunc_spec_nz ip d hnd hset hz2 hz3
  · exact itrunc_spec_nn ip d hnd hset hz2 hz3

theorem iput_decref (ip : BInode) (d : Disk)
    (hnot : ¬ (ip.ref = 1 ∧ ip.valid = true ∧ ip.nlink = 0)) :
    iput ip d = Except.ok ({ ip with ref := ip.ref - 1 }, d) := by
  unfold iput
  rw [if_neg hnot]

theorem iput_dealloc (ip : BInode) (d : Disk)
    (href : ip.ref = 1) (hval : ip.valid = true) (hnl : ip.nlink = 0)
    (hbusy : ip.busy = false)
    (hnd : (mappedBlocks ip d).Nodup)
    (hset : ∀ b ∈ mappedBlocks ip d, d.bitmap b = true) :
    ∃ ip2 d2, iput ip d = Except.ok (ip2, d2) ∧
      ip2.ref = 0 ∧ ip2.busy = false ∧ ip2.valid = false ∧ ip2.btype = 0 ∧
      ip2.size = 0 ∧ (∀ j, j < NDIRECT + 1 → ip2.addrs j = 0) ∧
      ip2.indirect2 = 0 ∧
      (d2.dinodes ip.inum).dtype = 0 ∧ (d2.dinodes ip.inum).dsize = 0 ∧
      (∀ b ∈ mappedBlocks ip d, d2.bitmap b = false) ∧
      d2.blocks = d.blocks := by
  obtain ⟨ipT, dT, hrun, hpost⟩ := itrunc_spec { ip with busy := true } d
    (show (mappedBlocks { ip with busy := true } d).Nodup from hnd)
    (show ∀ b ∈ mappedBlocks { ip with busy := true } d, d.bitmap b = true
      from hset)
  obtain ⟨haddrT, hindT, hsizeT, hinumT, hrefT, hbusyT, hvalidT, hbtypeT,
    hnlinkT, hbmT, hblT, hdnT⟩ := hpost
  refine ⟨{ ipT with btype := 0, busy := false, valid := false, ref := ipT.ref - 1 }, iupdate { ipT with btype := 0 } dT, ?_, ?_, rfl, rfl, rfl, hsizeT, haddrT, hindT, ?_, ?_, ?_, ?_⟩
  · unfold iput
    rw [if_pos (⟨href, hval, hnl⟩ : ip.ref = 1 ∧ ip.valid = true ∧
      ip.nlink = 0)]
    rw [if_neg (by rw [hbusy]; simp)]
    rw [hrun]
  · show ipT.ref - 1 = 0
    rw [hrefT]
    show ip.ref - 1 = 0
    omega
  · show (if ip.inum = ({ ipT with btype := 0 } : BInode).inum then _
      else dT.dinodes ip.inum).dtype = 0
    rw [if_pos (show ip.inum = ({ ipT with btype := 0 } : BInode).inum from
      by rw [show ({ ipT with btype := 0 } : BInode).inum = ip.inum from hinumT])]
  · show (if ip.inum = ({ ipT with btype := 0 } : BInode).inum then _
      else dT.dinodes ip.inum).dsize = 0
    rw [if_pos (show ip.inum = ({ ipT with btype := 0 } : BInode).inum from
      by rw [show ({ ipT with btype := 0 } : BInode).inum = ip.inum from hinumT])]
    show ipT.size = 0
    exact hsizeT
  · intro b hb
    show dT.bitmap b = false
    exact hbmT b hb
  · show dT.blocks = d.blocks
    exact hblT

theorem iputN_decref (n : Nat) : ∀ (ip : BInode) (d : Disk),
    ¬ (ip.valid = true ∧ ip.nlink = 0) →
    iputN n ip d = Except.ok ({ ip with ref := ip.ref - n }, d) := by
  induction n with
  | zero => intro ip d _; rfl
  | succ k ih =>
    intro ip d hvn
    have hnot : ¬ (ip.ref = 1 ∧ ip.valid = true ∧ ip.nlink = 0) :=
      fun h => hvn ⟨h.2.1, h.2.2⟩
    have hstep : iputN (k + 1) ip d =
        (match iput ip d with
         | Except.error e => Except.error e
         | Except.ok (ip1, d1) => iputN k ip1 d1) := rfl
    rw [hstep, iput_decref ip d hnot]
    have hih := ih { ip with ref := ip.ref - 1 } d
      (show ¬ (({ ip with ref := ip.ref - 1 } : BInode).valid = true ∧
        ({ ip with ref := ip.ref - 1 } : BInode).nlink = 0) from hvn)
    show iputN k { ip with ref := ip.ref - 1 } d =
      Except.ok ({ ip with ref := ip.ref - (k + 1) }, d)
    rw [hih]
    have harith : ip.ref - 1 - k = ip.ref - (k + 1) := by omega
    show Except.ok (({ ip with ref := ip.ref - 1 - k } : BInode), d) =
      Except.ok (({ ip with ref := ip.ref - (k + 1) } : BInode), d)
    rw [harith]

theorem iputN_dealloc_go (n : Nat) : ∀ (ip : BInode) (d : Disk),
    ip.ref = n + 1 → ip.busy = false → ip.valid = true → ip.nlink = 0 →
    (mappedBlocks ip d).Nodup →
    (∀ b ∈ mappedBlocks ip d, d.bitmap b = true) →
    ∃ ip2 d2, iputN (n + 1) ip d = Except.ok (ip2, d2) ∧
      ip2.ref = 0 ∧ ip2.busy = false ∧ ip2.valid = false ∧ ip2.btype = 0 ∧
      ip2.size = 0 ∧ (∀ j, j < NDIRECT + 1 → ip2.addrs j = 0) ∧
      ip2.indirect2 = 0 ∧
      (d2.dinodes ip.inum).dtype = 0 ∧ (d2.dinodes ip.inum).dsize = 0 ∧
      (∀ b ∈ mappedBlocks ip d, d2.bitmap b = false) ∧
      d2.blocks = d.blocks := by
  induction n with
  | zero =>
    intro ip d href hbusy hval hnl hnd hset
    obtain ⟨ip2, d2, heq, hprops⟩ :=
      iput_dealloc ip d href hval hnl hbusy hnd hset
    refine ⟨ip2, d2, ?_, hprops⟩
    have hstep : iputN 1 ip d =
        (match iput ip d with
         | Except.error e => Except.error e
         | Except.ok (ip1, d1) => iputN 0 ip1 d1) := rfl
    rw [hstep, heq]
    rfl
  | succ k ih =>
    intro ip d href hbusy hval hnl hnd hset
    have hnot : ¬ (ip.ref = 1 ∧ ip.valid = true ∧ ip.nlink = 0) := by
      intro h
      have h1 := h.1
      omega
    have hih := ih { ip with ref := ip.ref - 1 } d
      (show ({ ip with ref := ip.ref - 1 } : BInode).ref = k + 1 from by
        show ip.ref - 1 = k + 1
        omega)
      (show ({ ip with ref := ip.ref - 1 } : BInode).busy = false from hbusy)
      (show ({ ip with ref := ip.ref - 1 } : BInode).valid = true from hval)
      (show ({ ip with ref := ip.ref - 1 } : BInode).nlink = 0 from hnl)
      (show (mappedBlocks { ip with ref := ip.ref - 1 } d).Nodup from hnd)
      (show ∀ b ∈ mappedBlocks { ip with ref := ip.ref - 1 } d,
        d.bitmap b = true from hset)
    obtain ⟨ip2, d2, heq, hprops⟩ := hih
    refine ⟨ip2, d2, ?_, hprops⟩
    have hstep : iputN (k + 1 + 1) ip d =
        (match iput ip d with
         | Except.error e => Except.error e
         | Except.ok (ip1, d1) => iputN (k + 1) ip1 d1) := rfl
    rw [hstep, iput_decref ip d hnot]
    show iputN (k + 1) { ip with ref := ip.ref - 1 } d = Except.ok (ip2, d2)
    exact heq

/-- Claim C4 (corrected): applying `iput` `ref` times to a cached, unlocked
inode drops the reference count to zero, but clears the flags only on the
deallocation path. If the inode is not both valid and unlinked, every
`iput` is a pure reference-count decrement and the valid flag (and all
contents) survive. If the inode is valid and its link count is zero, the
last `iput` truncates it: every previously mapped direct, single-indirect
and double-indirect block is freed in the bitmap, the size and block
pointers are zeroed, the on-disk type and size are cleared, and the busy
and valid flags end false. -/
theorem iput_release_spec (ip : BInode) (d : Disk)
    (hbusy : ip.busy = false) (href : 0 < ip.ref) :
    (¬ (ip.valid = true ∧ ip.nlink = 0) →
      iputN ip.ref ip d = Except.ok ({ ip with ref := 0 }, d)) ∧
    (ip.valid = true → ip.nlink = 0 →
      (mappedBlocks ip d).Nodup →
      (∀ b ∈ mappedBlocks ip d, d.bitmap b = true) →
      ∃ ip2 d2, iputN ip.ref ip d = Except.ok (ip2, d2) ∧
        ip2.ref = 0 ∧ ip2.busy = false ∧ ip2.valid = false ∧ ip2.btype = 0 ∧
        ip2.size = 0 ∧ (∀ j, j < NDIRECT + 1 → ip2.addrs j = 0) ∧
        ip2.indirect2 = 0 ∧
        (d2.dinodes ip.inum).dtype = 0 ∧ (d2.dinodes ip.inum).dsize = 0 ∧
        (∀ b ∈ mappedBlocks ip d, d2.bitmap b = false) ∧
        d2.blocks = d.blocks) := by
  constructor
  · intro hvn
    have h := iputN_decref ip.ref ip d hvn
    rw [Nat.sub_self] at h
    exact h
  · intro hval hnl hnd hset
    obtain ⟨ip2, d2, heq, hprops⟩ :=
      iputN_dealloc_go (ip.ref - 1) ip d (by omega) hbusy hval hnl hnd hset
    refine ⟨ip2, d2, ?_, hprops⟩
    rw [show ip.ref = ip.ref - 1 + 1 from by omega]
    exact heq

/-- A valid, unlinked in-memory inode (reference count 2, no blocks
mapped) used to witness the release and deallocation behaviour. -/
def wIno : BInode :=
  { inum := 9, ref := 2, busy := false, valid := true, btype := T_FILE,
    major := 0, minor := 0, nlink := 0, size := 3, addrs := fun _ => 0,
    indirect2 := 0, bpassword := [] }

theorem iput_release_spec_witness :
    wIno.busy = false ∧ 0 < wIno.ref ∧
    (∃ ip2 d2, iputN wIno.ref wIno disk0 = Except.ok (ip2, d2) ∧
      ip2.ref = 0 ∧ ip2.valid = false ∧ ip2.busy = false ∧
      (d2.dinodes wIno.inum).dtype = 0 ∧ (d2.dinodes wIno.inum).dsize = 0) := by
  refine ⟨rfl, by decide, ?_⟩
  obtain ⟨-, h2⟩ := iput_release_spec wIno disk0 rfl (by decide)
  obtain ⟨ip2, d2, heq, hr, _, hv, _, _, _, _, hdt, hds, _, _⟩ :=
    h2 rfl rfl (by decide) (by decide)
  exact ⟨ip2, d2, heq, hr, hv, by assumption, hdt, hds⟩
